import Mathlib

/-!
# pr-downloader, `src/Logger.cpp`: logging and console progress

A shallow embedding of `Logger.cpp`.

* The three file-level / function-level statics (`logEnabled`, `lastlogtime`,
  `lastPercentage`) and the two output streams are the fields of `LogState`; every
  function takes the state and returns the new one, the bytes written by a call being
  what it appends to `stdout` / `stderr`.
* Clock readings (`system_clock::now()`, `time(nullptr)`) are arguments.
* The variadic `format, ...` pair of `L_LOG` is represented by the text it formats to.
* `float` is IEEE binary32 under round-to-nearest-even.  A value is represented by the
  rational number it denotes.  With `long` arguments every value that occurs lies in
  the normal range of binary32 (magnitudes between `2^-64` and `2^71`, or zero), so the
  exponent range is not modelled; the quotient of two non-zero values is never zero, so
  a negative zero does not occur either.
* `long` is 64 bit and `int` is 32 bit (LP64).  Signed overflow of `done * 2`, a
  `float -> int` conversion whose value does not fit and a division by zero are
  undefined behaviour in C++: `LOG_PROGRESS` returns `none` there.
-/

namespace Logger

/-! ## binary32 arithmetic -/

/-- Halves `n` until it is below 2, at most `fuel` times, counting the steps. -/
def log2Fuel : ℕ → ℕ → ℕ
  | 0, _ => 0
  | fuel + 1, n => if 2 ≤ n then log2Fuel fuel (n / 2) + 1 else 0

/-- Floor of the base-2 logarithm of a positive natural number (0 for 0). -/
def natLog2 (n : ℕ) : ℕ := log2Fuel n n

/-- Floor of the base-2 logarithm of a positive rational `n / d`, from the bit lengths
of `n` and `d`. -/
def ilog2 (q : ℚ) : ℤ :=
  let k : ℤ := (natLog2 q.num.natAbs : ℤ) - (natLog2 q.den : ℤ)
  if q.den * 2 ^ natLog2 q.num.natAbs ≤ q.num.natAbs * 2 ^ natLog2 q.den then k else k - 1

/-- Nearest integer, a tie going to the even neighbour. -/
def roundHalfEven (q : ℚ) : ℤ :=
  if q - ⌊q⌋ < 1 / 2 then ⌊q⌋
  else if 1 / 2 < q - ⌊q⌋ then ⌊q⌋ + 1
  else if ⌊q⌋ % 2 = 0 then ⌊q⌋ else ⌊q⌋ + 1

/-- Nearest binary32 value of a positive rational: the significand is scaled into
`[2^23, 2^24)` and rounded to an integer (24 significant bits). -/
def f32RoundPos (q : ℚ) : ℚ :=
  (roundHalfEven (q * 2 ^ (23 - ilog2 q)) : ℚ) * 2 ^ (ilog2 q - 23)

/-- Round-to-nearest-even into binary32. -/
def f32Round (q : ℚ) : ℚ :=
  if q = 0 then 0 else if q < 0 then -f32RoundPos (-q) else f32RoundPos q

/-- Conversion `(float)n` of an integer. -/
def f32OfInt (n : ℤ) : ℚ := f32Round n

/-- The binary32 quotient `a / b`. -/
def f32Div (a b : ℚ) : ℚ := f32Round (a / b)

/-- The division `a / b` as the program evaluates it: undefined, `none`, when the
divisor is zero. -/
def f32DivChecked (a b : ℚ) : Option ℚ := if b = 0 then none else some (f32Div a b)

/-- The binary32 product `a * b`. -/
def f32Mul (a b : ℚ) : ℚ := f32Round (a * b)

/-- Smallest value of `int`. -/
def INT_MIN : ℤ := -2 ^ 31

/-- Largest value of `int`. -/
def INT_MAX : ℤ := 2 ^ 31 - 1

/-- Smallest value of `long`. -/
def LONG_MIN : ℤ := -2 ^ 63

/-- Largest value of `long`. -/
def LONG_MAX : ℤ := 2 ^ 63 - 1

/-- Truncation toward zero. -/
def truncQ (x : ℚ) : ℤ := if 0 ≤ x then ⌊x⌋ else ⌈x⌉

/-- Conversion `float -> int`: the fractional part is discarded; undefined when the
truncated value is not representable in `int`. -/
def f32ToInt (x : ℚ) : Option ℤ :=
  if INT_MIN ≤ truncQ x ∧ truncQ x ≤ INT_MAX then some (truncQ x) else none

/-! ## printf conversions -/

/-- Pad on the left with `c` up to width `w`. -/
def padLeft (w : ℕ) (c : Char) (t : String) : String :=
  String.mk (List.replicate (w - t.length) c) ++ t

/-- The conversions `%d` and `%ld`. -/
def fmtInt (n : ℤ) : String := toString n

/-- The conversion `%3.0f`: the value rounded to an integer (correctly rounded, a tie
to even), a minus sign for a negative value, right-aligned in width 3. -/
def fmtF30 (x : ℚ) : String :=
  padLeft 3 ' ' ((if x < 0 then "-" else "") ++ toString (roundHalfEven |x|).toNat)

/-- The conversion `%03lu` applied to a `long` argument: the argument is read as an
unsigned 64-bit number and printed with at least three digits. -/
def fmt03lu (n : ℤ) : String :=
  padLeft 3 '0' (toString (n % 2 ^ 64).toNat)

/-- A two-digit field of `strftime` (`%m`, `%d`, `%H`, `%M`, `%S`). -/
def fmt02 (n : ℤ) : String :=
  (if n < 0 then "-" else "") ++ padLeft 2 '0' (toString n.natAbs)

/-! ## clock readings -/

/-- The fields of `struct tm` read by `%F %T`. -/
structure Tm where
  tm_year : ℤ
  tm_mon : ℤ
  tm_mday : ℤ
  tm_hour : ℤ
  tm_min : ℤ
  tm_sec : ℤ
deriving DecidableEq

/-- One reading of `system_clock::now()` as `L_LOG` uses it: the broken-down local time
`*std::localtime(&coarse)` and the count `fine.time_since_epoch().count()` of
milliseconds since the epoch. -/
structure TimePoint where
  localtime : Tm
  millis : ℤ
deriving DecidableEq

/-- The text `strftime` produces for `"%F %T."`, that is `%Y-%m-%d %H:%M:%S.`. -/
def strftimeText (tm : Tm) : String :=
  toString (tm.tm_year + 1900) ++ "-" ++ fmt02 (tm.tm_mon + 1) ++ "-" ++ fmt02 tm.tm_mday
    ++ " " ++ fmt02 tm.tm_hour ++ ":" ++ fmt02 tm.tm_min ++ ":" ++ fmt02 tm.tm_sec ++ "."

/-- The call `strftime(buf, maxsize, "%F %T.", tm)`: the text is stored when it fits
with its terminator; otherwise nothing usable is stored and 0 is returned. -/
def strftime (maxsize : ℕ) (tm : Tm) : String :=
  if (strftimeText tm).length + 1 ≤ maxsize then strftimeText tm else ""

/-- The call `snprintf(p, 4, "%03lu", v)`: at most three characters are stored. -/
def snprintf4 (v : ℤ) : String :=
  String.mk ((fmt03lu v).data.take 3)

/-- Size of the buffer `char timestamp[sizeof "9999-12-31 23:59:59.999"]`. -/
def timestampSize : ℕ := 24

/-- Lines 73-75 of `L_LOG`: the millisecond field is printed right after the bytes
`strftime` reported (at the start of the buffer when it reported 0). -/
def mkTimestamp (tp : TimePoint) : String :=
  strftime (timestampSize - 3) tp.localtime ++ snprintf4 (Int.tmod tp.millis 1000)

/-! ## the logger -/

/-- Modelled from the spec: the enumeration `L_LEVEL` of `Logger.h`, which is not part
of the sources at hand.  The spec names the five levels `Raw`, `Error`, `Warn`, `Info`,
`Debug`; `other n` stands for a value `n` of the underlying integer type that is none of
the five enumerators. -/
inductive L_LEVEL where
  | L_RAW
  | L_ERROR
  | L_WARN
  | L_INFO
  | L_DEBUG
  | other (n : ℤ)
deriving DecidableEq

/-- The mutable state `Logger.cpp` works on. -/
structure LogState where
  /-- The file-level flag `static bool logEnabled`. -/
  logEnabled : Bool
  /-- The function-level `static time_t lastlogtime` of `LOG_PROGRESS`. -/
  lastlogtime : ℤ
  /-- The function-level `static float lastPercentage` of `LOG_PROGRESS`. -/
  lastPercentage : ℚ
  /-- Everything written to standard output so far. -/
  stdout : String
  /-- Everything written to standard error so far. -/
  stderr : String
deriving DecidableEq

/-- The state at program start: `logEnabled = true`, `lastlogtime = 0`,
`lastPercentage = 0.0f`, nothing written. -/
def initState : LogState :=
  { logEnabled := true, lastlogtime := 0, lastPercentage := 0, stdout := "", stderr := "" }

/-- Lines 13-18: `vprintf(format, args); fflush(stdout);`. -/
def prdLogRaw (s : LogState) (_timestamp _fileName : String) (_line : ℤ) (_funcName : String)
    (msg : String) : LogState :=
  { s with stdout := s.stdout ++ msg }

/-- Lines 21-27: three writes to `stderr`. -/
def prdLogError (s : LogState) (timestamp fileName : String) (line : ℤ) (funcName : String)
    (msg : String) : LogState :=
  { s with stderr := s.stderr
      ++ (timestamp ++ " [Error] " ++ fileName ++ ":" ++ fmtInt line ++ ":" ++ funcName ++ "():")
      ++ msg ++ "\n" }

/-- Lines 29-35: three writes to `stdout`. -/
def prdLogWarn (s : LogState) (timestamp fileName : String) (line : ℤ) (funcName : String)
    (msg : String) : LogState :=
  { s with stdout := s.stdout
      ++ (timestamp ++ " [Warn] " ++ fileName ++ ":" ++ fmtInt line ++ ":" ++ funcName ++ "():")
      ++ msg ++ "\n" }

/-- Lines 37-43: three writes to `stdout`. -/
def prdLogInfo (s : LogState) (timestamp fileName : String) (line : ℤ) (funcName : String)
    (msg : String) : LogState :=
  { s with stdout := s.stdout
      ++ (timestamp ++ " [Info] " ++ fileName ++ ":" ++ fmtInt line ++ ":" ++ funcName ++ "():")
      ++ msg ++ "\n" }

/-- Lines 45-51: three writes to `stdout`. -/
def prdLogDebug (s : LogState) (timestamp fileName : String) (line : ℤ) (funcName : String)
    (msg : String) : LogState :=
  { s with stdout := s.stdout
      ++ (timestamp ++ " [Debug] " ++ fileName ++ ":" ++ fmtInt line ++ ":" ++ funcName ++ "():")
      ++ msg ++ "\n" }

/-- Lines 56-59. -/
def LOG_DISABLE (s : LogState) (disableLogging : Bool) : LogState :=
  { s with logEnabled := !disableLogging }

/-- Lines 61-98.  `msg` is the text `format` and its arguments format to. -/
def L_LOG (s : LogState) (tp : TimePoint) (fileName : String) (line : ℤ) (funName : String)
    (level : L_LEVEL) (msg : String) : LogState :=
  if !s.logEnabled then s
  else
    match level with
    | L_LEVEL.L_RAW => prdLogRaw s (mkTimestamp tp) fileName line funName msg
    | L_LEVEL.other _ => prdLogError s (mkTimestamp tp) fileName line funName msg
    | L_LEVEL.L_ERROR => prdLogError s (mkTimestamp tp) fileName line funName msg
    | L_LEVEL.L_WARN => prdLogWarn s (mkTimestamp tp) fileName line funName msg
    | L_LEVEL.L_INFO => prdLogInfo s (mkTimestamp tp) fileName line funName msg
    | L_LEVEL.L_DEBUG => prdLogDebug s (mkTimestamp tp) fileName line funName msg

/-- Modelled from the spec: the macro `LOG` of `Logger.h`, which is not part of the
sources at hand.  The spec has the progress line rendered "via three or more Raw-level
log calls": `LOG` is an `L_LOG` call at level `Raw` carrying the location of the call
site. -/
def LOG (s : LogState) (tp : TimePoint) (line : ℤ) (msg : String) : LogState :=
  L_LOG s tp "Logger.cpp" line "LOG_PROGRESS" L_LEVEL.L_RAW msg

/-- Lines 117-118: `if (total < 0) total = done * 2;`, undefined on signed overflow. -/
def substTotal (done total : ℤ) : Option ℤ :=
  if total < 0 then
    if LONG_MIN ≤ done * 2 ∧ done * 2 ≤ LONG_MAX then some (done * 2) else none
  else some total

/-- Lines 119-122: the value of `percentage`, with `total` as it stands after line
118. -/
def computePercentage (done total : ℤ) : ℚ :=
  if total > 0 then f32Div (f32OfInt done) (f32OfInt total) else 0

/-- Lines 119-122 with the division operator left open: `div a b` is the outcome of
evaluating `a / b`, `none` when the evaluation fails.  The division is evaluated only
under the guard `total > 0`. -/
def percentageWith (div : ℚ → ℚ → Option ℚ) (done total : ℤ) : Option ℚ :=
  if total > 0 then div (f32OfInt done) (f32OfInt total) else some 0

/-- Lines 131-136: the body of the `for` loop at index `i`. -/
def barCell (tp : TimePoint) (dotz : ℤ) (s : LogState) (i : ℕ) : LogState :=
  if (i : ℤ) ≥ dotz then LOG s tp 133 " " else LOG s tp 135 "="

/-- Lines 128-140: the rendering of one progress line. -/
def renderProgress (s : LogState) (tp : TimePoint) (done total : ℤ) (percentage : ℚ) :
    Option LogState :=
  let s1 := LOG s tp 128 ("[Progress] " ++ fmtF30 (f32Mul percentage 100) ++ "% [")
  match f32ToInt (f32Mul percentage (f32OfInt 30)) with
  | none => none
  | some dotz =>
    let s2 := (List.range 30).foldl (barCell tp dotz) s1
    let s3 := LOG s2 tp 139 ("] " ++ fmtInt done ++ "/" ++ fmtInt total ++ " ")
    some (LOG s3 tp 140 "\r")

/-- Lines 117-140: what `LOG_PROGRESS` does once the time throttle let the call pass. -/
def progressBody (s : LogState) (tp : TimePoint) (done total : ℤ) : Option LogState :=
  match substTotal done total with
  | none => none
  | some total1 =>
    match percentageWith f32DivChecked done total1 with
    | none => none
    | some percentage =>
      if percentage = s.lastPercentage then some s
      else renderProgress { s with lastPercentage := percentage } tp done total1 percentage

/-- Lines 100-141.  `now` is the value of `time(nullptr)`, `tp` the clock reading of the
nested `L_LOG` calls.  The result is `none` when the call runs into undefined
behaviour. -/
def LOG_PROGRESS (s : LogState) (now : ℤ) (tp : TimePoint) (done total : ℤ)
    (forceOutput : Bool) : Option LogState :=
  if !s.logEnabled then some s
  else if s.lastlogtime < now then progressBody { s with lastlogtime := now } tp done total
  else if !forceOutput then some s
  else progressBody s tp done total

/-! ## sequences of calls and the texts the statements refer to -/

/-- The arguments of one `L_LOG` call apart from the level, with the clock reading the
call sees. -/
structure LogArgs where
  tp : TimePoint
  fileName : String
  line : ℤ
  funName : String
  msg : String

/-- A sequence of `L_LOG` calls at level `Raw`, one after the other. -/
def rawCalls (s : LogState) (calls : List LogArgs) : LogState :=
  calls.foldl (fun st c => L_LOG st c.tp c.fileName c.line c.funName L_LEVEL.L_RAW c.msg) s

/-- The arguments of one `LOG_PROGRESS` call, with the clock readings the call sees. -/
structure ProgressArgs where
  now : ℤ
  tp : TimePoint
  done : ℤ
  total : ℤ
  forceOutput : Bool

/-- Runs a sequence of `LOG_PROGRESS` calls and lists, in call order, the clock second
of every call that wrote something. -/
def renderedSeconds (s : LogState) : List ProgressArgs → Option (List ℤ)
  | [] => some []
  | c :: cs =>
    match LOG_PROGRESS s c.now c.tp c.done c.total c.forceOutput with
    | none => none
    | some s1 =>
      match renderedSeconds s1 cs with
      | none => none
      | some l => some (if s1.stdout = s.stdout then l else c.now :: l)

/-- The bar as the spec words it: 30 cells, cell `i` is `=` when `i < dotz` and a blank
otherwise. -/
def barText (dotz : ℤ) : String :=
  String.mk ((List.range 30).map fun (i : ℕ) => if (i : ℤ) < dotz then '=' else ' ')

/-- The progress line as the spec words it, for the percentage `p`, the cell count
`dotz` and the numbers shown in the trailer. -/
def progressLine (p : ℚ) (dotz done total : ℤ) : String :=
  "[Progress] " ++ fmtF30 (f32Mul p 100) ++ "% [" ++ barText dotz ++ "] " ++ fmtInt done
    ++ "/" ++ fmtInt total ++ " " ++ "\r"

/-- A clock reading for the examples: 2026-10-30 01:02:03.045 local time. -/
def sampleTime : TimePoint :=
  { localtime :=
      { tm_year := 126, tm_mon := 9, tm_mday := 30, tm_hour := 1, tm_min := 2, tm_sec := 3 },
    millis := 1793322123045 }

/-- One call of the three entry points of `Logger.cpp`, with the clock readings it
sees. -/
inductive Call where
  | disable (disableLogging : Bool)
  | log (tp : TimePoint) (fileName : String) (line : ℤ) (funName : String) (level : L_LEVEL)
      (msg : String)
  | progress (now : ℤ) (tp : TimePoint) (done total : ℤ) (forceOutput : Bool)

/-- The state after one call; `none` when `LOG_PROGRESS` runs into undefined
behaviour. -/
def step (s : LogState) : Call → Option LogState
  | Call.disable b => some (LOG_DISABLE s b)
  | Call.log tp fileName line funName level msg =>
    some (L_LOG s tp fileName line funName level msg)
  | Call.progress now tp done total forceOutput => LOG_PROGRESS s now tp done total forceOutput

/-- The state after a sequence of calls. -/
def run (s : LogState) : List Call → Option LogState
  | [] => some s
  | c :: cs =>
    match step s c with
    | none => none
    | some s1 => run s1 cs

/-- The percentage of the progress line a call writes: `some p` for a `LOG_PROGRESS`
call that writes something, `p` being the percentage it computed, and `none` for every
other call. -/
def renderedPercentage (s : LogState) : Call → Option ℚ
  | Call.progress now tp done total forceOutput =>
    match LOG_PROGRESS s now tp done total forceOutput, substTotal done total with
    | some s1, some total1 =>
      if s1.stdout = s.stdout then none else some (computePercentage done total1)
    | _, _ => none
  | _ => none

/-- Runs a sequence of calls and lists, in call order, the percentages of the progress
lines that were written. -/
def renderedPercentages (s : LogState) : List Call → Option (List ℚ)
  | [] => some []
  | c :: cs =>
    match step s c with
    | none => none
    | some s1 =>
      match renderedPercentages s1 cs with
      | none => none
      | some l => some ((renderedPercentage s c).toList ++ l)

/-- A clock reading `L_LOG` can get from the system clock and print into its buffer
`"9999-12-31 23:59:59.999"`: a local time whose year has four digits (1000 to 9999),
with the fields of `struct tm` in their ranges (`tm_sec` up to 60 for a leap second),
and a count of milliseconds since the epoch that is not negative. -/
def ValidTimePoint (tp : TimePoint) : Prop :=
  -900 ≤ tp.localtime.tm_year ∧ tp.localtime.tm_year ≤ 8099 ∧
  0 ≤ tp.localtime.tm_mon ∧ tp.localtime.tm_mon ≤ 11 ∧
  1 ≤ tp.localtime.tm_mday ∧ tp.localtime.tm_mday ≤ 31 ∧
  0 ≤ tp.localtime.tm_hour ∧ tp.localtime.tm_hour ≤ 23 ∧
  0 ≤ tp.localtime.tm_min ∧ tp.localtime.tm_min ≤ 59 ∧
  0 ≤ tp.localtime.tm_sec ∧ tp.localtime.tm_sec ≤ 60 ∧
  0 ≤ tp.millis

instance (tp : TimePoint) : Decidable (ValidTimePoint tp) := by
  unfold ValidTimePoint
  infer_instance

/-- The decimal digit of `n` at the place `10^k`, as a character. -/
def digitAt (n : ℤ) (k : ℕ) : Char :=
  Nat.digitChar ((n.toNat / 10 ^ k) % 10)

/-! ## binary32 rounding -/

theorem log2Fuel_spec (fuel : ℕ) :
    ∀ n : ℕ, n ≤ fuel → n ≠ 0 → 2 ^ log2Fuel fuel n ≤ n ∧ n < 2 ^ (log2Fuel fuel n + 1) := by
  induction fuel with
  | zero =>
    intro n h1 h2
    omega
  | succ fuel ih =>
    intro n h1 h2
    unfold log2Fuel
    split_ifs with h
    · obtain ⟨i1, i2⟩ := ih (n / 2) (by omega) (by omega)
      constructor
      · rw [pow_succ]
        omega
      · rw [pow_succ]
        omega
    · constructor
      · simp; omega
      · simp; omega

theorem natLog2_spec (n : ℕ) (h : n ≠ 0) : 2 ^ natLog2 n ≤ n ∧ n < 2 ^ (natLog2 n + 1) :=
  log2Fuel_spec n n (le_refl n) h

theorem ilog2_spec (q : ℚ) (hq : 0 < q) :
    (2 : ℚ) ^ ilog2 q ≤ q ∧ q < (2 : ℚ) ^ (ilog2 q + 1) := by
  have hnum : 0 < q.num := Rat.num_pos.mpr hq
  have hn0 : q.num.natAbs ≠ 0 := by
    intro h0
    rw [Int.natAbs_eq_zero] at h0
    omega
  have hd0 : q.den ≠ 0 := q.den_nz
  have hna : ((q.num.natAbs : ℕ) : ℚ) = (q.num : ℚ) := by
    rw [← Int.cast_natCast, Int.natAbs_of_nonneg hnum.le]
  have hqe : q = (q.num.natAbs : ℚ) / (q.den : ℚ) := by
    rw [hna]; exact (Rat.num_div_den q).symm
  have hdpos : (0 : ℚ) < (q.den : ℚ) := by exact_mod_cast q.den_pos
  have a1 : 2 ^ natLog2 q.num.natAbs ≤ q.num.natAbs := (natLog2_spec _ hn0).1
  have a2 : q.num.natAbs < 2 ^ (natLog2 q.num.natAbs + 1) := (natLog2_spec _ hn0).2
  have b1 : 2 ^ natLog2 q.den ≤ q.den := (natLog2_spec _ hd0).1
  have b2 : q.den < 2 ^ (natLog2 q.den + 1) := (natLog2_spec _ hd0).2
  have a1q : (2 : ℚ) ^ natLog2 q.num.natAbs ≤ (q.num.natAbs : ℚ) := by exact_mod_cast a1
  have a2q : (q.num.natAbs : ℚ) < (2 : ℚ) ^ (natLog2 q.num.natAbs + 1) := by exact_mod_cast a2
  have b1q : (2 : ℚ) ^ natLog2 q.den ≤ (q.den : ℚ) := by exact_mod_cast b1
  have b2q : (q.den : ℚ) < (2 : ℚ) ^ (natLog2 q.den + 1) := by exact_mod_cast b2
  have hpa : (0 : ℚ) < (2 : ℚ) ^ natLog2 q.num.natAbs := by positivity
  have hpb : (0 : ℚ) < (2 : ℚ) ^ natLog2 q.den := by positivity
  have two0 : (2 : ℚ) ≠ 0 := by norm_num
  have z1 : (2 : ℚ) ^ ((natLog2 q.num.natAbs : ℤ) - (natLog2 q.den : ℤ))
      = (2 : ℚ) ^ natLog2 q.num.natAbs / (2 : ℚ) ^ natLog2 q.den := by
    rw [zpow_sub₀ two0, zpow_natCast, zpow_natCast]
  have z2 : (2 : ℚ) ^ ((natLog2 q.num.natAbs : ℤ) - (natLog2 q.den : ℤ) + 1)
      = (2 : ℚ) ^ (natLog2 q.num.natAbs + 1) / (2 : ℚ) ^ natLog2 q.den := by
    rw [zpow_add₀ two0, z1, zpow_one, pow_succ]; ring
  have z3 : (2 : ℚ) ^ ((natLog2 q.num.natAbs : ℤ) - (natLog2 q.den : ℤ) - 1)
      = (2 : ℚ) ^ natLog2 q.num.natAbs / (2 : ℚ) ^ (natLog2 q.den + 1) := by
    rw [zpow_sub₀ two0, z1, zpow_one, pow_succ]; field_simp
  unfold ilog2
  simp only
  split_ifs with hc
  · have hcq : (q.den : ℚ) * (2 : ℚ) ^ natLog2 q.num.natAbs
        ≤ (q.num.natAbs : ℚ) * (2 : ℚ) ^ natLog2 q.den := by exact_mod_cast hc
    rw [z1, z2]
    constructor
    · refine le_of_le_of_eq ?_ hqe.symm
      rw [div_le_div_iff₀ hpb hdpos]
      linarith
    · refine lt_of_eq_of_lt hqe ?_
      rw [div_lt_div_iff₀ hdpos hpb]
      have hn : (0 : ℚ) < (q.num.natAbs : ℚ) := by rw [hna]; exact_mod_cast hnum
      calc (q.num.natAbs : ℚ) * (2 : ℚ) ^ natLog2 q.den
          ≤ (q.num.natAbs : ℚ) * (q.den : ℚ) := mul_le_mul_of_nonneg_left b1q hn.le
        _ < (2 : ℚ) ^ (natLog2 q.num.natAbs + 1) * (q.den : ℚ) :=
            mul_lt_mul_of_pos_right a2q hdpos
  · have hcq : (q.num.natAbs : ℚ) * (2 : ℚ) ^ natLog2 q.den
        < (q.den : ℚ) * (2 : ℚ) ^ natLog2 q.num.natAbs := by
      have := not_le.mp hc
      exact_mod_cast this
    have e1 : (natLog2 q.num.natAbs : ℤ) - (natLog2 q.den : ℤ) - 1 + 1
        = (natLog2 q.num.natAbs : ℤ) - (natLog2 q.den : ℤ) := by ring
    rw [e1, z1, z3]
    constructor
    · refine le_of_le_of_eq ?_ hqe.symm
      rw [div_le_div_iff₀ (by positivity) hdpos]
      have hb2 : (q.den : ℚ) ≤ (2 : ℚ) ^ (natLog2 q.den + 1) := b2q.le
      have hn : (0 : ℚ) ≤ (q.num.natAbs : ℚ) := by positivity
      calc (2 : ℚ) ^ natLog2 q.num.natAbs * (q.den : ℚ)
          ≤ (q.num.natAbs : ℚ) * (q.den : ℚ) := by
            exact mul_le_mul_of_nonneg_right a1q hdpos.le
        _ ≤ (q.num.natAbs : ℚ) * (2 : ℚ) ^ (natLog2 q.den + 1) := by
            exact mul_le_mul_of_nonneg_left hb2 hn
    · refine lt_of_eq_of_lt hqe ?_
      rw [div_lt_div_iff₀ hdpos hpb]
      linarith

theorem two_zpow_le_of_le (a b : ℤ) (h : a ≤ b) : (2 : ℚ) ^ a ≤ (2 : ℚ) ^ b :=
  zpow_le_zpow_right₀ (by norm_num) h

theorem ilog2_lt_of_lt_zpow (q : ℚ) (hq : 0 < q) (e : ℤ) (h : q < (2 : ℚ) ^ e) :
    ilog2 q < e := by
  by_contra hc
  have h1 := (ilog2_spec q hq).1
  have h2 := two_zpow_le_of_le e (ilog2 q) (not_lt.mp hc)
  linarith

theorem le_ilog2_of_zpow_le (q : ℚ) (hq : 0 < q) (e : ℤ) (h : (2 : ℚ) ^ e ≤ q) :
    e ≤ ilog2 q := by
  by_contra hc
  have h1 := (ilog2_spec q hq).2
  have h2 := two_zpow_le_of_le (ilog2 q + 1) e (by omega)
  linarith

theorem ilog2_eq (q : ℚ) (hq : 0 < q) (e : ℤ) (h1 : (2 : ℚ) ^ e ≤ q)
    (h2 : q < (2 : ℚ) ^ (e + 1)) : ilog2 q = e := by
  have := ilog2_lt_of_lt_zpow q hq (e + 1) h2
  have := le_ilog2_of_zpow_le q hq e h1
  omega

theorem ilog2_mono (a b : ℚ) (ha : 0 < a) (h : a ≤ b) : ilog2 a ≤ ilog2 b :=
  le_ilog2_of_zpow_le b (lt_of_lt_of_le ha h) (ilog2 a)
    (le_trans (ilog2_spec a ha).1 h)

theorem roundHalfEven_intCast (n : ℤ) : roundHalfEven (n : ℚ) = n := by
  simp [roundHalfEven]

theorem floor_le_roundHalfEven (q : ℚ) : ⌊q⌋ ≤ roundHalfEven q := by
  unfold roundHalfEven
  split_ifs <;> omega

theorem roundHalfEven_le_floor_add_one (q : ℚ) : roundHalfEven q ≤ ⌊q⌋ + 1 := by
  unfold roundHalfEven
  split_ifs <;> omega

theorem roundHalfEven_mono (a b : ℚ) (h : a ≤ b) : roundHalfEven a ≤ roundHalfEven b := by
  have hf : ⌊a⌋ ≤ ⌊b⌋ := Int.floor_mono h
  rcases hf.lt_or_eq with hlt | heq
  · have h1 := roundHalfEven_le_floor_add_one a
    have h2 := floor_le_roundHalfEven b
    omega
  · unfold roundHalfEven
    rw [← heq]
    split_ifs <;> first | omega | (exfalso; linarith)

theorem roundHalfEven_nonneg (q : ℚ) (h : 0 ≤ q) : 0 ≤ roundHalfEven q := by
  have := roundHalfEven_mono 0 q h
  have h0 : roundHalfEven (0 : ℚ) = 0 := by
    have := roundHalfEven_intCast 0
    simpa using this
  omega

theorem f32RoundPos_bounds (q : ℚ) (hq : 0 < q) :
    (2 : ℚ) ^ ilog2 q ≤ f32RoundPos q ∧ f32RoundPos q ≤ (2 : ℚ) ^ (ilog2 q + 1) := by
  obtain ⟨h1, h2⟩ := ilog2_spec q hq
  have two0 : (2 : ℚ) ≠ 0 := by norm_num
  have hs : (0 : ℚ) < (2 : ℚ) ^ (23 - ilog2 q) := by positivity
  have hs2 : (0 : ℚ) < (2 : ℚ) ^ (ilog2 q - 23) := by positivity
  have lo : (2 : ℚ) ^ (23 : ℕ) ≤ q * 2 ^ (23 - ilog2 q) := by
    have e : (2 : ℚ) ^ (23 : ℕ) = 2 ^ ilog2 q * 2 ^ (23 - ilog2 q) := by
      rw [← zpow_add₀ two0, ← zpow_natCast]; congr 1; push_cast; ring
    rw [e]
    exact mul_le_mul_of_nonneg_right h1 hs.le
  have hi : q * 2 ^ (23 - ilog2 q) ≤ (2 : ℚ) ^ (24 : ℕ) := by
    have e : (2 : ℚ) ^ (24 : ℕ) = 2 ^ (ilog2 q + 1) * 2 ^ (23 - ilog2 q) := by
      rw [← zpow_add₀ two0, ← zpow_natCast]; congr 1; push_cast; ring
    rw [e]
    exact mul_le_mul_of_nonneg_right h2.le hs.le
  have lo1 : (2 : ℤ) ^ (23 : ℕ) ≤ roundHalfEven (q * 2 ^ (23 - ilog2 q)) := by
    have := roundHalfEven_mono _ _ lo
    have e : roundHalfEven ((2 : ℚ) ^ (23 : ℕ)) = (2 : ℤ) ^ (23 : ℕ) := by
      have := roundHalfEven_intCast ((2 : ℤ) ^ (23 : ℕ))
      push_cast at this
      exact this
    omega
  have hi1 : roundHalfEven (q * 2 ^ (23 - ilog2 q)) ≤ (2 : ℤ) ^ (24 : ℕ) := by
    have := roundHalfEven_mono _ _ hi
    have e : roundHalfEven ((2 : ℚ) ^ (24 : ℕ)) = (2 : ℤ) ^ (24 : ℕ) := by
      have := roundHalfEven_intCast ((2 : ℤ) ^ (24 : ℕ))
      push_cast at this
      exact this
    omega
  have lo2 : (2 : ℚ) ^ (23 : ℕ) ≤ (roundHalfEven (q * 2 ^ (23 - ilog2 q)) : ℚ) := by
    exact_mod_cast lo1
  have hi2 : (roundHalfEven (q * 2 ^ (23 - ilog2 q)) : ℚ) ≤ (2 : ℚ) ^ (24 : ℕ) := by
    exact_mod_cast hi1
  unfold f32RoundPos
  constructor
  · have e : (2 : ℚ) ^ ilog2 q = 2 ^ (23 : ℕ) * 2 ^ (ilog2 q - 23) := by
      rw [← zpow_natCast, ← zpow_add₀ two0]; congr 1; push_cast; ring
    rw [e]
    exact mul_le_mul_of_nonneg_right lo2 hs2.le
  · have e : (2 : ℚ) ^ (ilog2 q + 1) = 2 ^ (24 : ℕ) * 2 ^ (ilog2 q - 23) := by
      rw [← zpow_natCast, ← zpow_add₀ two0]; congr 1; push_cast; ring
    rw [e]
    exact mul_le_mul_of_nonneg_right hi2 hs2.le

theorem f32RoundPos_pos (q : ℚ) (hq : 0 < q) : 0 < f32RoundPos q :=
  lt_of_lt_of_le (by positivity) (f32RoundPos_bounds q hq).1

theorem f32RoundPos_mono (a b : ℚ) (ha : 0 < a) (h : a ≤ b) :
    f32RoundPos a ≤ f32RoundPos b := by
  have hb : 0 < b := lt_of_lt_of_le ha h
  rcases (ilog2_mono a b ha h).lt_or_eq with hlt | heq
  · calc f32RoundPos a ≤ (2 : ℚ) ^ (ilog2 a + 1) := (f32RoundPos_bounds a ha).2
      _ ≤ (2 : ℚ) ^ ilog2 b := two_zpow_le_of_le _ _ (by omega)
      _ ≤ f32RoundPos b := (f32RoundPos_bounds b hb).1
  · unfold f32RoundPos
    rw [← heq]
    have hs : (0 : ℚ) < (2 : ℚ) ^ (23 - ilog2 a) := by positivity
    have hs2 : (0 : ℚ) < (2 : ℚ) ^ (ilog2 a - 23) := by positivity
    have hm : roundHalfEven (a * 2 ^ (23 - ilog2 a)) ≤ roundHalfEven (b * 2 ^ (23 - ilog2 a)) :=
      roundHalfEven_mono _ _ (mul_le_mul_of_nonneg_right h hs.le)
    have hmq : (roundHalfEven (a * 2 ^ (23 - ilog2 a)) : ℚ)
        ≤ (roundHalfEven (b * 2 ^ (23 - ilog2 a)) : ℚ) := by exact_mod_cast hm
    exact mul_le_mul_of_nonneg_right hmq hs2.le

theorem f32Round_zero : f32Round 0 = 0 := by
  simp [f32Round]

theorem f32Round_of_pos (q : ℚ) (hq : 0 < q) : f32Round q = f32RoundPos q := by
  simp [f32Round, hq.ne', not_lt.mpr hq.le]

theorem f32Round_of_neg (q : ℚ) (hq : q < 0) : f32Round q = -f32RoundPos (-q) := by
  simp [f32Round, hq.ne, hq]

theorem f32Round_neg (q : ℚ) : f32Round (-q) = -f32Round q := by
  rcases lt_trichotomy q 0 with h | h | h
  · rw [f32Round_of_neg q h, f32Round_of_pos (-q) (by linarith)]; simp
  · subst h; simp [f32Round_zero]
  · rw [f32Round_of_pos q h, f32Round_of_neg (-q) (by linarith)]; simp

theorem f32Round_pos (q : ℚ) (hq : 0 < q) : 0 < f32Round q := by
  rw [f32Round_of_pos q hq]; exact f32RoundPos_pos q hq

theorem f32Round_mono (a b : ℚ) (h : a ≤ b) : f32Round a ≤ f32Round b := by
  rcases lt_trichotomy a 0 with ha | ha | ha
  · rcases lt_trichotomy b 0 with hb | hb | hb
    · rw [f32Round_of_neg a ha, f32Round_of_neg b hb]
      have := f32RoundPos_mono (-b) (-a) (by linarith) (by linarith)
      linarith
    · subst hb
      rw [f32Round_of_neg a ha, f32Round_zero]
      have := f32RoundPos_pos (-a) (by linarith)
      linarith
    · rw [f32Round_of_neg a ha]
      have h1 := f32RoundPos_pos (-a) (by linarith)
      have h2 := f32Round_pos b hb
      linarith
  · subst ha
    rcases h.lt_or_eq with hb | hb
    · rw [f32Round_zero]; exact (f32Round_pos b hb).le
    · rw [← hb]
  · have hb : 0 < b := lt_of_lt_of_le ha h
    rw [f32Round_of_pos a ha, f32Round_of_pos b hb]
    exact f32RoundPos_mono a b ha h

theorem f32Round_eq_zero_iff (q : ℚ) : f32Round q = 0 ↔ q = 0 := by
  constructor
  · intro h
    rcases lt_trichotomy q 0 with hq | hq | hq
    · have := f32Round_pos (-q) (by linarith)
      rw [f32Round_neg] at this
      linarith
    · exact hq
    · have := f32Round_pos q hq
      linarith
  · rintro rfl; exact f32Round_zero

theorem ilog2_two_mul (q : ℚ) (hq : 0 < q) : ilog2 (2 * q) = ilog2 q + 1 := by
  obtain ⟨h1, h2⟩ := ilog2_spec q hq
  have two0 : (2 : ℚ) ≠ 0 := by norm_num
  apply ilog2_eq (2 * q) (by linarith)
  · rw [zpow_add₀ two0, zpow_one]; linarith
  · rw [zpow_add₀ two0 (ilog2 q + 1), zpow_one]; linarith

theorem f32Round_two_mul (q : ℚ) : f32Round (2 * q) = 2 * f32Round q := by
  have two0 : (2 : ℚ) ≠ 0 := by norm_num
  have pos : ∀ r : ℚ, 0 < r → f32RoundPos (2 * r) = 2 * f32RoundPos r := by
    intro r hr
    unfold f32RoundPos
    rw [ilog2_two_mul r hr]
    have e1 : (2 : ℚ) * r * 2 ^ (23 - (ilog2 r + 1)) = r * 2 ^ (23 - ilog2 r) := by
      have : (23 : ℤ) - ilog2 r = (23 - (ilog2 r + 1)) + 1 := by ring
      rw [this, zpow_add₀ two0, zpow_one]; ring
    have e2 : (2 : ℚ) ^ (ilog2 r + 1 - 23) = 2 * 2 ^ (ilog2 r - 23) := by
      have : ilog2 r + 1 - 23 = (ilog2 r - 23) + 1 := by ring
      rw [this, zpow_add₀ two0, zpow_one]; ring
    rw [e1, e2]; ring
  rcases lt_trichotomy q 0 with h | h | h
  · rw [f32Round_of_neg q h, f32Round_of_neg (2 * q) (by linarith)]
    have := pos (-q) (by linarith)
    rw [show -(2 * q) = 2 * -q by ring, this]; ring
  · subst h; simp [f32Round_zero]
  · rw [f32Round_of_pos q h, f32Round_of_pos (2 * q) (by linarith)]
    exact pos q h

theorem f32Round_one : f32Round 1 = 1 := by decide!

theorem f32OfInt_thirty : f32OfInt 30 = 30 := by decide!

theorem f32Round_thirty : f32Round 30 = 30 := by decide!

theorem f32Round_hundred : f32Round 100 = 100 := by decide!

theorem f32Round_half : f32Round (1 / 2) = 1 / 2 := by decide!

/-! ## the dispatcher -/

theorem L_LOG_disabled (s : LogState) (tp : TimePoint) (file : String) (line : ℤ)
    (fn : String) (level : L_LEVEL) (m : String) (h : s.logEnabled = false) :
    L_LOG s tp file line fn level m = s := by
  simp [L_LOG, h]

theorem L_LOG_raw (s : LogState) (tp : TimePoint) (file : String) (line : ℤ)
    (fn m : String) (h : s.logEnabled = true) :
    L_LOG s tp file line fn L_LEVEL.L_RAW m = { s with stdout := s.stdout ++ m } := by
  simp [L_LOG, h, prdLogRaw]

theorem L_LOG_error (s : LogState) (tp : TimePoint) (file : String) (line : ℤ)
    (fn m : String) (h : s.logEnabled = true) :
    L_LOG s tp file line fn L_LEVEL.L_ERROR m =
      { s with stderr := s.stderr ++ (mkTimestamp tp ++ " [Error] " ++ file ++ ":"
          ++ fmtInt line ++ ":" ++ fn ++ "():" ++ m ++ "\n") } := by
  simp [L_LOG, h, prdLogError, String.append_assoc]

theorem L_LOG_warn (s : LogState) (tp : TimePoint) (file : String) (line : ℤ)
    (fn m : String) (h : s.logEnabled = true) :
    L_LOG s tp file line fn L_LEVEL.L_WARN m =
      { s with stdout := s.stdout ++ (mkTimestamp tp ++ " [Warn] " ++ file ++ ":"
          ++ fmtInt line ++ ":" ++ fn ++ "():" ++ m ++ "\n") } := by
  simp [L_LOG, h, prdLogWarn, String.append_assoc]

theorem L_LOG_info (s : LogState) (tp : TimePoint) (file : String) (line : ℤ)
    (fn m : String) (h : s.logEnabled = true) :
    L_LOG s tp file line fn L_LEVEL.L_INFO m =
      { s with stdout := s.stdout ++ (mkTimestamp tp ++ " [Info] " ++ file ++ ":"
          ++ fmtInt line ++ ":" ++ fn ++ "():" ++ m ++ "\n") } := by
  simp [L_LOG, h, prdLogInfo, String.append_assoc]

theorem L_LOG_debug (s : LogState) (tp : TimePoint) (file : String) (line : ℤ)
    (fn m : String) (h : s.logEnabled = true) :
    L_LOG s tp file line fn L_LEVEL.L_DEBUG m =
      { s with stdout := s.stdout ++ (mkTimestamp tp ++ " [Debug] " ++ file ++ ":"
          ++ fmtInt line ++ ":" ++ fn ++ "():" ++ m ++ "\n") } := by
  simp [L_LOG, h, prdLogDebug, String.append_assoc]

theorem LOG_enabled (s : LogState) (tp : TimePoint) (line : ℤ) (m : String)
    (h : s.logEnabled = true) :
    LOG s tp line m = { s with stdout := s.stdout ++ m } :=
  L_LOG_raw s tp _ line _ m h

theorem String_join_cons (m : String) (l : List String) :
    String.join (m :: l) = m ++ String.join l := by
  have key : ∀ (xs : List String) (acc : String),
      List.foldl (fun r t => r ++ t) acc xs = acc ++ List.foldl (fun r t => r ++ t) "" xs := by
    intro xs
    induction xs with
    | nil => intro acc; simp
    | cons x xs ih =>
      intro acc
      rw [List.foldl_cons, List.foldl_cons, ih (acc ++ x), ih ("" ++ x)]
      simp [String.append_assoc]
  simp only [String.join, List.foldl_cons]
  rw [key l ("" ++ m)]
  simp

theorem rawCalls_enabled (calls : List LogArgs) (s : LogState) (h : s.logEnabled = true) :
    rawCalls s calls = { s with stdout := s.stdout ++ String.join (calls.map fun c => c.msg) } := by
  induction calls generalizing s with
  | nil => simp [rawCalls, String.join]
  | cons c cs ih =>
    have h1 : rawCalls s (c :: cs)
        = rawCalls (L_LOG s c.tp c.fileName c.line c.funName L_LEVEL.L_RAW c.msg) cs := by
      simp [rawCalls]
    rw [h1, L_LOG_raw s c.tp c.fileName c.line c.funName c.msg h,
      ih { s with stdout := s.stdout ++ c.msg } h]
    simp [String_join_cons, String.append_assoc]

/-! ## the progress renderer -/

theorem barLoop_enabled (tp : TimePoint) (dotz : ℤ) (n : ℕ) (s : LogState)
    (h : s.logEnabled = true) :
    (List.range n).foldl (barCell tp dotz) s =
      { s with stdout := s.stdout
          ++ String.mk ((List.range n).map fun (i : ℕ) => if (i : ℤ) < dotz then '=' else ' ') } := by
  induction n with
  | zero => simp
  | succ n ih =>
    rw [List.range_succ, List.foldl_append, ih]
    simp only [List.foldl_cons, List.foldl_nil, barCell]
    by_cases hd : (n : ℤ) < dotz
    · rw [if_neg (by omega)]
      simp [LOG, L_LOG, prdLogRaw, h, hd, String.ext_iff]
    · rw [if_pos (by omega)]
      simp [LOG, L_LOG, prdLogRaw, h, hd, String.ext_iff]

theorem renderProgress_enabled (s : LogState) (tp : TimePoint) (done total : ℤ) (p : ℚ)
    (dotz : ℤ) (h : s.logEnabled = true) (hd : f32ToInt (f32Mul p 30) = some dotz) :
    renderProgress s tp done total p =
      some { s with stdout := s.stdout ++ progressLine p dotz done total } := by
  unfold renderProgress
  rw [f32OfInt_thirty, hd]
  simp only
  rw [barLoop_enabled tp dotz 30 _ (by simp [LOG, L_LOG, prdLogRaw, h])]
  simp [LOG, L_LOG, prdLogRaw, h, progressLine, barText, String.append_assoc]

theorem renderProgress_undefined (s : LogState) (tp : TimePoint) (done total : ℤ) (p : ℚ)
    (hd : f32ToInt (f32Mul p 30) = none) :
    renderProgress s tp done total p = none := by
  unfold renderProgress
  rw [f32OfInt_thirty, hd]

theorem f32OfInt_pos_ge_one (t : ℤ) (ht : 0 < t) : 1 ≤ f32OfInt t := by
  have := f32Round_mono 1 (t : ℚ) (by exact_mod_cast ht)
  rw [f32Round_one] at this
  exact this

theorem percentageWith_checked (done total : ℤ) :
    percentageWith f32DivChecked done total = some (computePercentage done total) := by
  unfold percentageWith computePercentage f32DivChecked
  by_cases ht : total > 0
  · have h1 := f32OfInt_pos_ge_one total ht
    have h0 : f32OfInt total ≠ 0 := by
      intro hc
      rw [hc] at h1
      exact absurd h1 (by norm_num)
    rw [if_pos ht, if_pos ht, if_neg h0]
  · rw [if_neg ht, if_neg ht]

theorem progressBody_same (s : LogState) (tp : TimePoint) (done total total1 : ℤ)
    (ht : substTotal done total = some total1)
    (hp : computePercentage done total1 = s.lastPercentage) :
    progressBody s tp done total = some s := by
  simp [progressBody, ht, percentageWith_checked, hp]

theorem progressBody_renders (s : LogState) (tp : TimePoint) (done total total1 dotz : ℤ)
    (h : s.logEnabled = true) (ht : substTotal done total = some total1)
    (hp : computePercentage done total1 ≠ s.lastPercentage)
    (hd : f32ToInt (f32Mul (computePercentage done total1) 30) = some dotz) :
    progressBody s tp done total =
      some { s with
        lastPercentage := computePercentage done total1
        stdout := s.stdout ++ progressLine (computePercentage done total1) dotz done total1 } := by
  simp only [progressBody, ht, percentageWith_checked, hp, if_false]
  rw [renderProgress_enabled { s with lastPercentage := computePercentage done total1 } tp done
    total1 _ dotz h hd]

theorem progressBody_cases (s s1 : LogState) (tp : TimePoint) (done total : ℤ)
    (h : s.logEnabled = true) (hr : progressBody s tp done total = some s1) :
    ∃ total1, substTotal done total = some total1 ∧
      ((computePercentage done total1 = s.lastPercentage ∧ s1 = s) ∨
       (computePercentage done total1 ≠ s.lastPercentage ∧
        ∃ dotz, f32ToInt (f32Mul (computePercentage done total1) 30) = some dotz ∧
          s1 = { s with
            lastPercentage := computePercentage done total1
            stdout := s.stdout
              ++ progressLine (computePercentage done total1) dotz done total1 })) := by
  cases ht : substTotal done total with
  | none => simp [progressBody, ht] at hr
  | some total1 =>
    refine ⟨total1, rfl, ?_⟩
    by_cases hp : computePercentage done total1 = s.lastPercentage
    · left
      rw [progressBody_same s tp done total total1 ht hp] at hr
      exact ⟨hp, (Option.some.inj hr).symm⟩
    · right
      refine ⟨hp, ?_⟩
      cases hd : f32ToInt (f32Mul (computePercentage done total1) 30) with
      | none =>
        simp only [progressBody, ht, percentageWith_checked, hp, if_false] at hr
        rw [renderProgress_undefined _ tp done total1 _ hd] at hr
        exact absurd hr (by simp)
      | some dotz =>
        rw [progressBody_renders s tp done total total1 dotz h ht hp hd] at hr
        exact ⟨dotz, rfl, (Option.some.inj hr).symm⟩

theorem LOG_PROGRESS_throttled (s : LogState) (now : ℤ) (tp : TimePoint) (done total : ℤ)
    (h : s.logEnabled = true) (hn : ¬ s.lastlogtime < now) :
    LOG_PROGRESS s now tp done total false = some s := by
  simp [LOG_PROGRESS, h, hn]

theorem LOG_PROGRESS_passed (s : LogState) (now : ℤ) (tp : TimePoint) (done total : ℤ)
    (forceOutput : Bool) (h : s.logEnabled = true)
    (hpass : s.lastlogtime < now ∨ forceOutput = true) :
    LOG_PROGRESS s now tp done total forceOutput =
      progressBody { s with lastlogtime := max s.lastlogtime now } tp done total := by
  by_cases hn : s.lastlogtime < now
  · simp [LOG_PROGRESS, h, hn, max_eq_right hn.le]
  · have hf : forceOutput = true := by
      rcases hpass with h1 | h1
      · exact absurd h1 hn
      · exact h1
    have hs : { s with lastlogtime := max s.lastlogtime now } = s := by
      rw [max_eq_left (not_lt.mp hn)]
    rw [hs]
    simp [LOG_PROGRESS, h, hn, hf]

theorem LOG_PROGRESS_renders (s : LogState) (now : ℤ) (tp : TimePoint)
    (done total total1 dotz : ℤ) (forceOutput : Bool) (h : s.logEnabled = true)
    (hpass : s.lastlogtime < now ∨ forceOutput = true)
    (ht : substTotal done total = some total1)
    (hp : computePercentage done total1 ≠ s.lastPercentage)
    (hd : f32ToInt (f32Mul (computePercentage done total1) 30) = some dotz) :
    LOG_PROGRESS s now tp done total forceOutput =
      some { s with
        lastlogtime := max s.lastlogtime now
        lastPercentage := computePercentage done total1
        stdout := s.stdout ++ progressLine (computePercentage done total1) dotz done total1 } := by
  rw [LOG_PROGRESS_passed s now tp done total forceOutput h hpass,
    progressBody_renders { s with lastlogtime := max s.lastlogtime now } tp done total total1
      dotz h ht hp hd]

theorem LOG_PROGRESS_cases (s s1 : LogState) (now : ℤ) (tp : TimePoint) (done total : ℤ)
    (forceOutput : Bool) (h : s.logEnabled = true)
    (hr : LOG_PROGRESS s now tp done total forceOutput = some s1) :
    (¬ s.lastlogtime < now ∧ forceOutput = false ∧ s1 = s) ∨
    ((s.lastlogtime < now ∨ forceOutput = true) ∧
      ∃ total1, substTotal done total = some total1 ∧
        ((computePercentage done total1 = s.lastPercentage ∧
            s1 = { s with lastlogtime := max s.lastlogtime now }) ∨
         (computePercentage done total1 ≠ s.lastPercentage ∧
          ∃ dotz, f32ToInt (f32Mul (computePercentage done total1) 30) = some dotz ∧
            s1 = { s with
              lastlogtime := max s.lastlogtime now
              lastPercentage := computePercentage done total1
              stdout := s.stdout
                ++ progressLine (computePercentage done total1) dotz done total1 }))) := by
  by_cases hpass : s.lastlogtime < now ∨ forceOutput = true
  · right
    refine ⟨hpass, ?_⟩
    rw [LOG_PROGRESS_passed s now tp done total forceOutput h hpass] at hr
    exact progressBody_cases { s with lastlogtime := max s.lastlogtime now } s1 tp done total h hr
  · left
    have hn : ¬ s.lastlogtime < now := fun hc => hpass (Or.inl hc)
    have hf : forceOutput = false := by
      cases forceOutput with
      | false => rfl
      | true => exact absurd (Or.inr rfl) hpass
    subst hf
    rw [LOG_PROGRESS_throttled s now tp done total h hn] at hr
    exact ⟨hn, rfl, (Option.some.inj hr).symm⟩

theorem progressLine_length_pos (p : ℚ) (dotz done total : ℤ) :
    0 < (progressLine p dotz done total).length := by
  have h1 : (progressLine p dotz done total).length
      = ("[Progress] " ++ fmtF30 (f32Mul p 100) ++ "% [" ++ barText dotz ++ "] " ++ fmtInt done
          ++ "/" ++ fmtInt total ++ " ").length + "\r".length := by
    unfold progressLine
    rw [String.length_append]
  have h2 : "\r".length = 1 := by decide
  omega

theorem String_append_ne_self (a b : String) (h : 0 < b.length) : a ++ b ≠ a := by
  intro hc
  have := congrArg String.length hc
  rw [String.length_append] at this
  omega

theorem f32Round_abs (q : ℚ) : f32Round |q| = |f32Round q| := by
  rcases le_total 0 q with h | h
  · have h1 : 0 ≤ f32Round q := by
      have := f32Round_mono 0 q h
      rwa [f32Round_zero] at this
    rw [abs_of_nonneg h, abs_of_nonneg h1]
  · have h1 : f32Round q ≤ 0 := by
      have := f32Round_mono q 0 h
      rwa [f32Round_zero] at this
    rw [abs_of_nonpos h, abs_of_nonpos h1, f32Round_neg]

theorem f32Round_two_pow_63 : f32Round (2 ^ 63) = 2 ^ 63 := by decide!

theorem f32Round_two_pow_neg_63 : f32Round (1 / 2 ^ 63) = 1 / 2 ^ 63 := by decide!

theorem f32OfInt_long_range (n : ℤ) (h1 : LONG_MIN ≤ n) (h2 : n ≤ LONG_MAX) (h0 : n ≠ 0) :
    1 ≤ |f32OfInt n| ∧ |f32OfInt n| ≤ 2 ^ 63 := by
  have hmin : LONG_MIN = -2 ^ 63 := rfl
  have hmax : LONG_MAX = 2 ^ 63 - 1 := rfl
  unfold f32OfInt
  rw [← f32Round_abs]
  have a1 : (1 : ℚ) ≤ |(n : ℚ)| := by
    have : (1 : ℤ) ≤ |n| := Int.one_le_abs h0
    exact_mod_cast this
  have a2 : |(n : ℚ)| ≤ 2 ^ 63 := by
    have : |n| ≤ 2 ^ 63 := by
      rw [abs_le]
      constructor <;> omega
    exact_mod_cast this
  constructor
  · have := f32Round_mono 1 _ a1
    rwa [f32Round_one] at this
  · have := f32Round_mono _ (2 ^ 63) a2
    rwa [f32Round_two_pow_63] at this

/-- The percentage of `long` arguments is zero or has a magnitude between `2^-63` and
`2^63`: it is a normal binary32 number, so that leaving the exponent range out of
`f32Round` loses nothing. -/
theorem computePercentage_normal_range (done total : ℤ) (h1 : LONG_MIN ≤ done)
    (h2 : done ≤ LONG_MAX) (h3 : total ≤ LONG_MAX) :
    computePercentage done total = 0 ∨
    (1 / 2 ^ 63 ≤ |computePercentage done total| ∧ |computePercentage done total| ≤ 2 ^ 63) := by
  by_cases ht : total > 0
  · by_cases hd : done = 0
    · left
      subst hd
      simp [computePercentage, ht, f32Div, f32OfInt, f32Round_zero]
    · right
      obtain ⟨d1, d2⟩ := f32OfInt_long_range done h1 h2 hd
      obtain ⟨t1, t2⟩ := f32OfInt_long_range total
        (by have : LONG_MIN ≤ 0 := by decide
            omega) h3 (by omega)
      have tpos : 0 < |f32OfInt total| := by linarith
      have e : computePercentage done total = f32Round (f32OfInt done / f32OfInt total) := by
        simp [computePercentage, ht, f32Div]
      rw [e, ← f32Round_abs, abs_div]
      constructor
      · have hq : (1 : ℚ) / 2 ^ 63 ≤ |f32OfInt done| / |f32OfInt total| := by
          rw [div_le_div_iff₀ (by positivity) tpos]
          nlinarith
        have := f32Round_mono _ _ hq
        rwa [f32Round_two_pow_neg_63] at this
      · have hq : |f32OfInt done| / |f32OfInt total| ≤ 2 ^ 63 := by
          rw [div_le_iff₀ tpos]
          nlinarith
        have := f32Round_mono _ _ hq
        rwa [f32Round_two_pow_63] at this
  · left
    simp [computePercentage, ht]

theorem computePercentage_unit_interval (done total : ℤ) (h0 : 0 ≤ done) (h1 : done ≤ total)
    (ht : 0 < total) :
    0 ≤ computePercentage done total ∧ computePercentage done total ≤ 1 := by
  have hd0 : (0 : ℚ) ≤ f32OfInt done := by
    have := f32Round_mono 0 (done : ℚ) (by exact_mod_cast h0)
    rw [f32Round_zero] at this
    exact this
  have hdt : f32OfInt done ≤ f32OfInt total :=
    f32Round_mono (done : ℚ) (total : ℚ) (by exact_mod_cast h1)
  have ht1 : (1 : ℚ) ≤ f32OfInt total := by
    have := f32Round_mono 1 (total : ℚ) (by exact_mod_cast ht)
    rw [f32Round_one] at this
    exact this
  have hq0 : (0 : ℚ) ≤ f32OfInt done / f32OfInt total := div_nonneg hd0 (by linarith)
  have hq1 : f32OfInt done / f32OfInt total ≤ 1 := by
    rw [div_le_one (by linarith)]
    exact hdt
  have e : computePercentage done total = f32Round (f32OfInt done / f32OfInt total) := by
    simp [computePercentage, ht, f32Div]
  rw [e]
  constructor
  · have := f32Round_mono 0 _ hq0
    rw [f32Round_zero] at this
    exact this
  · have := f32Round_mono _ 1 hq1
    rw [f32Round_one] at this
    exact this

theorem truncQ_of_nonneg (x : ℚ) (h : 0 ≤ x) : truncQ x = ⌊x⌋ := by
  simp [truncQ, h]

theorem bar_cells_eq_replicate (n : ℕ) (d : ℤ) :
    (List.range n).map (fun (i : ℕ) => if (i : ℤ) < d then '=' else ' ')
      = List.replicate (min n d.toNat) '=' ++ List.replicate (n - min n d.toNat) ' ' := by
  apply List.ext_getElem
  · simp
  · intro i h1 h2
    simp only [List.length_map, List.length_range] at h1
    simp only [List.getElem_map, List.getElem_range]
    by_cases hi : i < min n d.toNat
    · rw [List.getElem_append_left (by simp only [List.length_replicate]; exact hi)]
      have : (i : ℤ) < d := by omega
      simp [this]
    · rw [List.getElem_append_right (by simp only [List.length_replicate]; omega)]
      have : ¬ (i : ℤ) < d := by omega
      simp [this]

theorem barText_length (dotz : ℤ) : (barText dotz).length = 30 := by
  simp [barText, String.length]

theorem barText_cell (dotz : ℤ) (i : ℕ) (h : i < 30) :
    (barText dotz).data[i]? = some (if (i : ℤ) < dotz then '=' else ' ') := by
  simp [barText, List.getElem?_map, List.getElem?_range h]

theorem lt_truncQ_iff (x : ℚ) (i : ℕ) : (i : ℤ) < truncQ x ↔ (i : ℤ) < ⌊x⌋ := by
  unfold truncQ
  split_ifs with h
  · rfl
  · have hx : x < 0 := not_le.mp h
    have h1 : ⌈x⌉ ≤ 0 := Int.ceil_le.mpr (by exact_mod_cast hx.le)
    have h2 : ⌊x⌋ < 0 := Int.floor_lt.mpr (by exact_mod_cast hx)
    constructor <;> intro hc <;> omega

theorem f32ToInt_eq_some (x : ℚ) (d : ℤ) (h : f32ToInt x = some d) : d = truncQ x := by
  unfold f32ToInt at h
  split_ifs at h
  exact (Option.some.inj h).symm

theorem computePercentage_double (done : ℤ) (hd : 0 < done) :
    computePercentage done (done * 2) = 1 / 2 := by
  have hpos : done * 2 > 0 := by omega
  have hx : f32Round (done : ℚ) ≠ 0 := by
    rw [Ne, f32Round_eq_zero_iff]
    exact_mod_cast hd.ne'
  have e1 : f32OfInt (done * 2) = 2 * f32OfInt done := by
    unfold f32OfInt
    rw [← f32Round_two_mul]
    congr 1
    push_cast
    ring
  have e2 : f32OfInt done / (2 * f32OfInt done) = 1 / 2 := by
    unfold f32OfInt
    field_simp
    ring
  simp only [computePercentage, hpos, if_true, f32Div]
  rw [e1, e2, f32Round_half]

theorem LOG_PROGRESS_unforced_step (s s1 : LogState) (now : ℤ) (tp : TimePoint)
    (done total : ℤ) (h : s.logEnabled = true)
    (hr : LOG_PROGRESS s now tp done total false = some s1) :
    s1.logEnabled = true ∧ s.lastlogtime ≤ s1.lastlogtime ∧ now ≤ s1.lastlogtime ∧
    (s1.stdout ≠ s.stdout → s.lastlogtime < now) := by
  rcases LOG_PROGRESS_cases s s1 now tp done total false h hr with
    ⟨hn, _, e⟩ | ⟨hpass, total1, _, ⟨_, e⟩ | ⟨_, dotz, _, e⟩⟩
  · subst e
    exact ⟨h, le_refl _, not_lt.mp hn, fun hc => absurd rfl hc⟩
  · have hlt : s.lastlogtime < now := by
      rcases hpass with h1 | h1
      · exact h1
      · exact absurd h1 (by simp)
    subst e
    exact ⟨h, le_max_left _ _, le_max_right _ _, fun _ => hlt⟩
  · have hlt : s.lastlogtime < now := by
      rcases hpass with h1 | h1
      · exact h1
      · exact absurd h1 (by simp)
    subst e
    exact ⟨h, le_max_left _ _, le_max_right _ _, fun _ => hlt⟩

theorem LOG_PROGRESS_step_time (s s1 : LogState) (now : ℤ) (tp : TimePoint)
    (done total : ℤ) (forceOutput : Bool) (h : s.logEnabled = true)
    (hr : LOG_PROGRESS s now tp done total forceOutput = some s1) :
    s1.logEnabled = true ∧ now ≤ s1.lastlogtime := by
  rcases LOG_PROGRESS_cases s s1 now tp done total forceOutput h hr with
    ⟨hn, _, e⟩ | ⟨_, total1, _, ⟨_, e⟩ | ⟨_, dotz, _, e⟩⟩
  · subst e
    exact ⟨h, not_lt.mp hn⟩
  · subst e
    exact ⟨h, le_max_right _ _⟩
  · subst e
    exact ⟨h, le_max_right _ _⟩

theorem renderedSeconds_increasing (calls : List ProgressArgs) :
    ∀ (s : LogState) (l : List ℤ), s.logEnabled = true →
      (∀ c ∈ calls, c.forceOutput = false) → renderedSeconds s calls = some l →
      (∀ t ∈ l, s.lastlogtime < t) ∧ l.Pairwise (fun a b => a < b) := by
  induction calls with
  | nil =>
    intro s l _ _ hr
    simp [renderedSeconds] at hr
    subst hr
    simp
  | cons c cs ih =>
    intro s l h hf hr
    have hc : c.forceOutput = false := hf c (List.mem_cons_self _ _)
    have hcs : ∀ c1 ∈ cs, c1.forceOutput = false := fun c1 hm => hf c1 (List.mem_cons_of_mem _ hm)
    unfold renderedSeconds at hr
    cases h1 : LOG_PROGRESS s c.now c.tp c.done c.total c.forceOutput with
    | none => simp [h1] at hr
    | some s1 =>
      cases h2 : renderedSeconds s1 cs with
      | none => simp [h1, h2] at hr
      | some l1 =>
        simp only [h1, h2] at hr
        have hl : l = if s1.stdout = s.stdout then l1 else c.now :: l1 :=
          (Option.some.inj hr).symm
        rw [hc] at h1
        obtain ⟨he, hmono, hnow, hwr⟩ :=
          LOG_PROGRESS_unforced_step s s1 c.now c.tp c.done c.total h h1
        obtain ⟨ih1, ih2⟩ := ih s1 l1 he hcs h2
        by_cases hsame : s1.stdout = s.stdout
        · rw [if_pos hsame] at hl
          subst hl
          exact ⟨fun t ht => lt_of_le_of_lt hmono (ih1 t ht), ih2⟩
        · rw [if_neg hsame] at hl
          subst hl
          constructor
          · intro t ht
            rcases List.mem_cons.mp ht with e | hm
            · rw [e]; exact hwr hsame
            · exact lt_of_le_of_lt hmono (ih1 t hm)
          · exact List.Pairwise.cons (fun t ht => lt_of_le_of_lt hnow (ih1 t ht)) ih2

/-! ## decimal conversions -/

theorem toDigitsCore_step (fuel n : ℕ) (ds : List Char) :
    Nat.toDigitsCore 10 (fuel + 1) n ds =
      if n / 10 = 0 then Nat.digitChar (n % 10) :: ds
      else Nat.toDigitsCore 10 fuel (n / 10) (Nat.digitChar (n % 10) :: ds) := rfl

theorem toDigits_one (n : ℕ) (h : n < 10) : Nat.toDigits 10 n = [Nat.digitChar n] := by
  unfold Nat.toDigits
  rw [toDigitsCore_step, if_pos (by omega), Nat.mod_eq_of_lt h]

theorem toDigits_two (n : ℕ) (h1 : 10 ≤ n) (h2 : n < 100) :
    Nat.toDigits 10 n = [Nat.digitChar (n / 10), Nat.digitChar (n % 10)] := by
  obtain ⟨k, rfl⟩ : ∃ k, n = k + 1 := ⟨n - 1, by omega⟩
  unfold Nat.toDigits
  rw [toDigitsCore_step, if_neg (by omega), toDigitsCore_step, if_pos (by omega),
    Nat.mod_eq_of_lt (show (k + 1) / 10 < 10 by omega)]

theorem toDigits_three (n : ℕ) (h1 : 100 ≤ n) (h2 : n < 1000) :
    Nat.toDigits 10 n =
      [Nat.digitChar (n / 100), Nat.digitChar (n / 10 % 10), Nat.digitChar (n % 10)] := by
  obtain ⟨k, rfl⟩ : ∃ k, n = k + 2 := ⟨n - 2, by omega⟩
  unfold Nat.toDigits
  rw [toDigitsCore_step, if_neg (by omega), toDigitsCore_step, if_neg (by omega),
    toDigitsCore_step, if_pos (by omega), Nat.div_div_eq_div_mul,
    Nat.mod_eq_of_lt (show (k + 2) / (10 * 10) < 10 by omega)]

theorem toDigits_four (n : ℕ) (h1 : 1000 ≤ n) (h2 : n < 10000) :
    Nat.toDigits 10 n =
      [Nat.digitChar (n / 1000), Nat.digitChar (n / 100 % 10), Nat.digitChar (n / 10 % 10),
        Nat.digitChar (n % 10)] := by
  obtain ⟨k, rfl⟩ : ∃ k, n = k + 3 := ⟨n - 3, by omega⟩
  unfold Nat.toDigits
  rw [toDigitsCore_step, if_neg (by omega), toDigitsCore_step, if_neg (by omega),
    toDigitsCore_step, if_neg (by omega), toDigitsCore_step, if_pos (by omega)]
  have a : (k + 3) / 10 / 10 / 10 % 10 = (k + 3) / 1000 := by omega
  have b : (k + 3) / 10 / 10 % 10 = (k + 3) / 100 % 10 := by omega
  rw [a, b]

theorem toString_int_of_nat (n : ℕ) : toString ((n : ℤ)) = String.mk (Nat.toDigits 10 n) := rfl

theorem toString_nat (n : ℕ) : toString n = String.mk (Nat.toDigits 10 n) := rfl

theorem digitChar_ne_newline (d : ℕ) (h : d < 10) : Nat.digitChar d ≠ '\n' := by
  interval_cases d <;> decide

theorem toDigitsCore_no_newline (fuel : ℕ) :
    ∀ (n : ℕ) (ds : List Char), (∀ c ∈ ds, c ≠ '\n') →
      ∀ c ∈ Nat.toDigitsCore 10 fuel n ds, c ≠ '\n' := by
  induction fuel with
  | zero =>
    intro n ds hds c hc
    exact hds c hc
  | succ fuel ih =>
    intro n ds hds c hc
    rw [toDigitsCore_step] at hc
    have hd : ∀ c ∈ Nat.digitChar (n % 10) :: ds, c ≠ '\n' := by
      intro c1 hc1
      rcases List.mem_cons.mp hc1 with e | hm
      · rw [e]; exact digitChar_ne_newline _ (Nat.mod_lt _ (by decide))
      · exact hds c1 hm
    split_ifs at hc
    · exact hd c hc
    · exact ih _ _ hd c hc

theorem toString_nat_no_newline (n : ℕ) : ∀ c ∈ (toString n).data, c ≠ '\n' := by
  rw [toString_nat]
  exact toDigitsCore_no_newline _ _ _ (by simp)

theorem padLeft_mk (w : ℕ) (c : Char) (l : List Char) :
    padLeft w c (String.mk l) = String.mk (List.replicate (w - l.length) c ++ l) := by
  simp [padLeft, String.ext_iff]

theorem two_digits (k : ℕ) (h : k < 100) :
    padLeft 2 '0' (toString k) = String.mk [Nat.digitChar (k / 10 % 10), Nat.digitChar (k % 10)] := by
  rw [toString_nat]
  rcases Nat.lt_or_ge k 10 with h1 | h1
  · rw [toDigits_one k h1, padLeft_mk]
    have e1 : k / 10 % 10 = 0 := by omega
    have e2 : k % 10 = k := by omega
    rw [e1, e2]
    rfl
  · rw [toDigits_two k h1 h, padLeft_mk]
    have e1 : k / 10 % 10 = k / 10 := by omega
    rw [e1]
    rfl

theorem three_digits (k : ℕ) (h : k < 1000) :
    padLeft 3 '0' (toString k) =
      String.mk [Nat.digitChar (k / 100 % 10), Nat.digitChar (k / 10 % 10),
        Nat.digitChar (k % 10)] := by
  rw [toString_nat]
  rcases Nat.lt_or_ge k 10 with h1 | h1
  · rw [toDigits_one k h1, padLeft_mk]
    have e0 : k / 100 % 10 = 0 := by omega
    have e1 : k / 10 % 10 = 0 := by omega
    have e2 : k % 10 = k := by omega
    rw [e0, e1, e2]
    rfl
  · rcases Nat.lt_or_ge k 100 with h2 | h2
    · rw [toDigits_two k h1 h2, padLeft_mk]
      have e0 : k / 100 % 10 = 0 := by omega
      have e1 : k / 10 % 10 = k / 10 := by omega
      rw [e0, e1]
      rfl
    · rw [toDigits_three k h2 h, padLeft_mk]
      have e0 : k / 100 % 10 = k / 100 := by omega
      rw [e0]
      rfl

theorem four_digits (k : ℕ) (h1 : 1000 ≤ k) (h2 : k < 10000) :
    toString ((k : ℕ) : ℤ) =
      String.mk [Nat.digitChar (k / 1000 % 10), Nat.digitChar (k / 100 % 10),
        Nat.digitChar (k / 10 % 10), Nat.digitChar (k % 10)] := by
  rw [toString_int_of_nat, toDigits_four k h1 h2]
  have e0 : k / 1000 % 10 = k / 1000 := by omega
  rw [e0]

theorem fmt02_digits (n : ℤ) (h0 : 0 ≤ n) (h1 : n ≤ 99) :
    fmt02 n = String.mk [digitAt n 1, digitAt n 0] := by
  obtain ⟨k, rfl⟩ : ∃ k : ℕ, n = k := ⟨n.toNat, (Int.toNat_of_nonneg h0).symm⟩
  have hk : k < 100 := by omega
  unfold fmt02 digitAt
  rw [if_neg (by omega)]
  simp only [Int.natAbs_ofNat, Int.toNat_ofNat, pow_one, pow_zero, Nat.div_one]
  rw [two_digits k hk]
  rfl

theorem year_digits (n : ℤ) (h0 : 1000 ≤ n) (h1 : n ≤ 9999) :
    toString n = String.mk [digitAt n 3, digitAt n 2, digitAt n 1, digitAt n 0] := by
  obtain ⟨k, rfl⟩ : ∃ k : ℕ, n = k := ⟨n.toNat, (Int.toNat_of_nonneg (by omega)).symm⟩
  rw [four_digits k (by omega) (by omega)]
  unfold digitAt
  simp only [Int.toNat_ofNat, pow_one, pow_zero, Nat.div_one]
  rfl

theorem snprintf4_digits (r : ℤ) (h0 : 0 ≤ r) (h1 : r < 1000) :
    snprintf4 r = String.mk [digitAt r 2, digitAt r 1, digitAt r 0] := by
  obtain ⟨k, rfl⟩ : ∃ k : ℕ, r = k := ⟨r.toNat, (Int.toNat_of_nonneg h0).symm⟩
  have hk : k < 1000 := by omega
  have e : ((k : ℤ) % 2 ^ 64).toNat = k := by
    rw [Int.emod_eq_of_lt (by omega) (by omega)]
    rfl
  unfold snprintf4 fmt03lu digitAt
  rw [e, three_digits k hk]
  simp only [Int.toNat_ofNat, pow_one, pow_zero, Nat.div_one]
  rfl

theorem mkTimestamp_valid (tp : TimePoint) (h : ValidTimePoint tp) :
    mkTimestamp tp = String.mk
      [digitAt (tp.localtime.tm_year + 1900) 3, digitAt (tp.localtime.tm_year + 1900) 2,
        digitAt (tp.localtime.tm_year + 1900) 1, digitAt (tp.localtime.tm_year + 1900) 0, '-',
        digitAt (tp.localtime.tm_mon + 1) 1, digitAt (tp.localtime.tm_mon + 1) 0, '-',
        digitAt tp.localtime.tm_mday 1, digitAt tp.localtime.tm_mday 0, ' ',
        digitAt tp.localtime.tm_hour 1, digitAt tp.localtime.tm_hour 0, ':',
        digitAt tp.localtime.tm_min 1, digitAt tp.localtime.tm_min 0, ':',
        digitAt tp.localtime.tm_sec 1, digitAt tp.localtime.tm_sec 0, '.',
        digitAt (tp.millis % 1000) 2, digitAt (tp.millis % 1000) 1,
        digitAt (tp.millis % 1000) 0] := by
  obtain ⟨y0, y1, m0, m1, d0, d1, h0, h1, mi0, mi1, s0, s1, ms0⟩ := h
  have ht : strftimeText tp.localtime = String.mk
      [digitAt (tp.localtime.tm_year + 1900) 3, digitAt (tp.localtime.tm_year + 1900) 2,
        digitAt (tp.localtime.tm_year + 1900) 1, digitAt (tp.localtime.tm_year + 1900) 0, '-',
        digitAt (tp.localtime.tm_mon + 1) 1, digitAt (tp.localtime.tm_mon + 1) 0, '-',
        digitAt tp.localtime.tm_mday 1, digitAt tp.localtime.tm_mday 0, ' ',
        digitAt tp.localtime.tm_hour 1, digitAt tp.localtime.tm_hour 0, ':',
        digitAt tp.localtime.tm_min 1, digitAt tp.localtime.tm_min 0, ':',
        digitAt tp.localtime.tm_sec 1, digitAt tp.localtime.tm_sec 0, '.'] := by
    unfold strftimeText
    rw [year_digits _ (by omega) (by omega), fmt02_digits _ (by omega) (by omega),
      fmt02_digits _ (by omega) (by omega), fmt02_digits _ h0 (by omega),
      fmt02_digits _ mi0 (by omega), fmt02_digits _ s0 (by omega)]
    rfl
  have hms : Int.tmod tp.millis 1000 = tp.millis % 1000 := Int.tmod_eq_emod ms0 (by decide)
  unfold mkTimestamp strftime
  rw [ht, hms, snprintf4_digits _ (Int.emod_nonneg _ (by decide)) (Int.emod_lt_of_pos _ (by decide))]
  rw [if_pos (by simp [String.length, timestampSize])]
  rfl

/-! ## sequences of calls -/

theorem L_LOG_throttle_state (s : LogState) (tp : TimePoint) (file : String) (line : ℤ)
    (fn : String) (level : L_LEVEL) (m : String) :
    (L_LOG s tp file line fn level m).logEnabled = s.logEnabled ∧
    (L_LOG s tp file line fn level m).lastlogtime = s.lastlogtime ∧
    (L_LOG s tp file line fn level m).lastPercentage = s.lastPercentage := by
  unfold L_LOG
  split_ifs
  · exact ⟨rfl, rfl, rfl⟩
  · cases level <;> simp [prdLogRaw, prdLogError, prdLogWarn, prdLogInfo, prdLogDebug]

theorem LOG_PROGRESS_of_disabled (s : LogState) (now : ℤ) (tp : TimePoint) (done total : ℤ)
    (forceOutput : Bool) (h : s.logEnabled = false) :
    LOG_PROGRESS s now tp done total forceOutput = some s := by
  simp [LOG_PROGRESS, h]

theorem LOG_PROGRESS_lastlogtime (s s1 : LogState) (now : ℤ) (tp : TimePoint) (done total : ℤ)
    (forceOutput : Bool) (h : s.logEnabled = true)
    (hr : LOG_PROGRESS s now tp done total forceOutput = some s1) :
    s1.lastlogtime = max s.lastlogtime now := by
  rcases LOG_PROGRESS_cases s s1 now tp done total forceOutput h hr with
    ⟨hn, _, e⟩ | ⟨_, total1, _, ⟨_, e⟩ | ⟨_, dotz, _, e⟩⟩
  · subst e
    exact (max_eq_left (not_lt.mp hn)).symm
  · subst e; rfl
  · subst e; rfl

theorem step_lastlogtime_le (s s1 : LogState) (c : Call) (hr : step s c = some s1) :
    s.lastlogtime ≤ s1.lastlogtime := by
  cases c with
  | disable b =>
    simp only [step, Option.some.injEq] at hr
    subst hr
    exact le_refl _
  | log tp file line fn level m =>
    simp only [step, Option.some.injEq] at hr
    subst hr
    rw [(L_LOG_throttle_state s tp file line fn level m).2.1]
  | progress now tp done total forceOutput =>
    simp only [step] at hr
    cases he : s.logEnabled with
    | false =>
      rw [LOG_PROGRESS_of_disabled s now tp done total forceOutput he] at hr
      rw [← Option.some.inj hr]
    | true =>
      rw [LOG_PROGRESS_lastlogtime s s1 now tp done total forceOutput he hr]
      exact le_max_left _ _

theorem run_lastlogtime_le (cs : List Call) :
    ∀ (s s1 : LogState), run s cs = some s1 → s.lastlogtime ≤ s1.lastlogtime := by
  induction cs with
  | nil =>
    intro s s1 hr
    simp only [run, Option.some.injEq] at hr
    subst hr
    exact le_refl _
  | cons c cs ih =>
    intro s s1 hr
    unfold run at hr
    cases h1 : step s c with
    | none => simp [h1] at hr
    | some sm =>
      simp only [h1] at hr
      exact le_trans (step_lastlogtime_le s sm c h1) (ih sm s1 hr)

theorem run_append (cs1 cs2 : List Call) :
    ∀ s : LogState, run s (cs1 ++ cs2) = (run s cs1).bind (fun s1 => run s1 cs2) := by
  induction cs1 with
  | nil => intro s; simp [run]
  | cons c cs ih =>
    intro s
    simp only [List.cons_append, run]
    cases h1 : step s c with
    | none => simp
    | some sm => simp [ih sm]

theorem step_lastPercentage (s s1 : LogState) (c : Call) (hr : step s c = some s1) :
    (renderedPercentage s c = none ∧ s1.lastPercentage = s.lastPercentage) ∨
    (∃ p, renderedPercentage s c = some p ∧ s1.lastPercentage = p ∧ p ≠ s.lastPercentage) := by
  cases c with
  | disable b =>
    simp only [step, Option.some.injEq] at hr
    subst hr
    exact Or.inl ⟨rfl, rfl⟩
  | log tp file line fn level m =>
    simp only [step, Option.some.injEq] at hr
    subst hr
    exact Or.inl ⟨rfl, (L_LOG_throttle_state s tp file line fn level m).2.2⟩
  | progress now tp done total forceOutput =>
    simp only [step] at hr
    have same : ∀ s2 : LogState, LOG_PROGRESS s now tp done total forceOutput = some s2 →
        s2.stdout = s.stdout →
        renderedPercentage s (Call.progress now tp done total forceOutput) = none := by
      intro s2 h2 hs
      simp only [renderedPercentage]
      rw [h2]
      cases substTotal done total with
      | none => rfl
      | some t1 => simp [hs]
    cases he : s.logEnabled with
    | false =>
      rw [LOG_PROGRESS_of_disabled s now tp done total forceOutput he] at hr
      have e : s1 = s := (Option.some.inj hr).symm
      subst e
      exact Or.inl ⟨same s1 (LOG_PROGRESS_of_disabled s1 now tp done total forceOutput he) rfl,
        rfl⟩
    | true =>
      rcases LOG_PROGRESS_cases s s1 now tp done total forceOutput he hr with
        ⟨_, _, e⟩ | ⟨_, total1, ht, ⟨_, e⟩ | ⟨hne, dotz, _, e⟩⟩
      · exact Or.inl ⟨same s1 hr (by rw [e]), by rw [e]⟩
      · exact Or.inl ⟨same s1 hr (by rw [e]), by rw [e]⟩
      · right
        refine ⟨computePercentage done total1, ?_, by rw [e], hne⟩
        simp only [renderedPercentage]
        rw [hr, ht]
        have hw : s1.stdout ≠ s.stdout := by
          rw [e]
          exact String_append_ne_self _ _ (progressLine_length_pos _ _ _ _)
        simp [hw]

theorem run_lastPercentage (cs : List Call) :
    ∀ (s s1 : LogState) (l : List ℚ), run s cs = some s1 →
      renderedPercentages s cs = some l →
      s1.lastPercentage = l.getLast?.getD s.lastPercentage ∧
      List.Chain (fun a b => a ≠ b) s.lastPercentage l := by
  induction cs with
  | nil =>
    intro s s1 l hr hl
    simp only [run, Option.some.injEq] at hr
    simp only [renderedPercentages, Option.some.injEq] at hl
    subst hr hl
    exact ⟨rfl, List.Chain.nil⟩
  | cons c cs ih =>
    intro s s1 l hr hl
    unfold run at hr
    unfold renderedPercentages at hl
    cases h1 : step s c with
    | none => simp [h1] at hr
    | some sm =>
      simp only [h1] at hr hl
      cases h2 : renderedPercentages sm cs with
      | none => simp [h2] at hl
      | some l1 =>
        simp only [h2, Option.some.injEq] at hl
        obtain ⟨i1, i2⟩ := ih sm s1 l1 hr h2
        rcases step_lastPercentage s sm c h1 with ⟨e1, e2⟩ | ⟨p, e1, e2, e3⟩
        · rw [e1] at hl
          simp only [Option.toList, List.nil_append] at hl
          subst hl
          rw [← e2]
          exact ⟨i1, i2⟩
        · rw [e1] at hl
          simp only [Option.toList, List.singleton_append] at hl
          subst hl
          rw [e2] at i1 i2
          refine ⟨?_, List.Chain.cons (fun h => e3 h.symm) i2⟩
          rw [i1, List.getLast?_cons]
          simp

theorem renderedPercentages_defined (cs : List Call) :
    ∀ (s s1 : LogState), run s cs = some s1 → ∃ l, renderedPercentages s cs = some l := by
  induction cs with
  | nil =>
    intro s s1 _
    exact ⟨[], rfl⟩
  | cons c cs ih =>
    intro s s1 hr
    unfold run at hr
    cases h1 : step s c with
    | none => simp [h1] at hr
    | some sm =>
      simp only [h1] at hr
      obtain ⟨l1, hl1⟩ := ih sm s1 hr
      exact ⟨(renderedPercentage s c).toList ++ l1, by simp [renderedPercentages, h1, hl1]⟩

/-! ## the characters of a progress line -/

theorem toString_int_no_newline (n : ℤ) : ∀ c ∈ (toString n).data, c ≠ '\n' := by
  cases n with
  | ofNat m => exact toString_nat_no_newline m
  | negSucc m =>
    intro c hc
    have e : toString (Int.negSucc m) = "-" ++ toString (m + 1) := rfl
    rw [e, String.data_append] at hc
    rcases List.mem_append.mp hc with h1 | h1
    · have : c = '-' := by simpa using h1
      rw [this]; decide
    · exact toString_nat_no_newline (m + 1) c h1

theorem fmtF30_no_newline (x : ℚ) : ∀ c ∈ (fmtF30 x).data, c ≠ '\n' := by
  intro c hc
  unfold fmtF30 padLeft at hc
  rw [String.data_append, String.data_append] at hc
  rcases List.mem_append.mp hc with h1 | h1
  · have : c = ' ' := List.eq_of_mem_replicate h1
    rw [this]; decide
  · rcases List.mem_append.mp h1 with h2 | h2
    · split_ifs at h2
      · have : c = '-' := by simpa using h2
        rw [this]; decide
      · simp at h2
    · exact toString_nat_no_newline _ c h2

theorem fmtF30_length (x : ℚ) : 3 ≤ (fmtF30 x).length := by
  unfold fmtF30 padLeft
  rw [String.length_append, String.length_mk, List.length_replicate]
  omega

theorem barText_no_newline (dotz : ℤ) : ∀ c ∈ (barText dotz).data, c ≠ '\n' := by
  intro c hc
  unfold barText at hc
  obtain ⟨i, _, hi⟩ := List.mem_map.mp hc
  rw [← hi]
  split_ifs <;> decide

theorem progressLine_no_newline (p : ℚ) (dotz done total : ℤ) :
    ∀ c ∈ (progressLine p dotz done total).data, c ≠ '\n' := by
  intro c hc
  unfold progressLine at hc
  simp only [String.data_append, List.mem_append] at hc
  rcases hc with ((((((((h | h) | h) | h) | h) | h) | h) | h) | h) | h
  · have : c ∈ "[Progress] ".data := h
    revert c
    decide
  · exact fmtF30_no_newline _ c h
  · have : c ∈ "% [".data := h
    revert c
    decide
  · exact barText_no_newline _ c h
  · have : c ∈ "] ".data := h
    revert c
    decide
  · exact toString_int_no_newline _ c h
  · have : c ∈ "/".data := h
    revert c
    decide
  · exact toString_int_no_newline _ c h
  · have : c ∈ " ".data := h
    revert c
    decide
  · have : c ∈ "\r".data := h
    revert c
    decide

theorem progressLine_last (p : ℚ) (dotz done total : ℤ) :
    (progressLine p dotz done total).data.getLast? = some '\r' := by
  unfold progressLine
  rw [String.data_append]
  exact List.getLast?_concat _

/-! ## the claims -/

/-- C1 (as amended): an enabled `L_LOG` call at a decorated level writes exactly
`ts [Level] file:line:function():` directly followed by the message and one newline,
with no byte between `():` and the message; `Error` goes to the error stream, `Warn`,
`Info` and `Debug` to standard output, and nothing else of the state changes. -/
theorem L_LOG_decorated (s : LogState) (tp : TimePoint) (file : String) (line : ℤ)
    (fn m : String) (h : s.logEnabled = true) :
    L_LOG s tp file line fn L_LEVEL.L_ERROR m =
        { s with stderr := s.stderr ++ (mkTimestamp tp ++ " [Error] " ++ file ++ ":"
            ++ fmtInt line ++ ":" ++ fn ++ "():" ++ m ++ "\n") } ∧
    L_LOG s tp file line fn L_LEVEL.L_WARN m =
        { s with stdout := s.stdout ++ (mkTimestamp tp ++ " [Warn] " ++ file ++ ":"
            ++ fmtInt line ++ ":" ++ fn ++ "():" ++ m ++ "\n") } ∧
    L_LOG s tp file line fn L_LEVEL.L_INFO m =
        { s with stdout := s.stdout ++ (mkTimestamp tp ++ " [Info] " ++ file ++ ":"
            ++ fmtInt line ++ ":" ++ fn ++ "():" ++ m ++ "\n") } ∧
    L_LOG s tp file line fn L_LEVEL.L_DEBUG m =
        { s with stdout := s.stdout ++ (mkTimestamp tp ++ " [Debug] " ++ file ++ ":"
            ++ fmtInt line ++ ":" ++ fn ++ "():" ++ m ++ "\n") } :=
  ⟨L_LOG_error s tp file line fn m h, L_LOG_warn s tp file line fn m h,
    L_LOG_info s tp file line fn m h, L_LOG_debug s tp file line fn m h⟩

/-- Witness of C1: the `Info` line of a call at 2026-10-30 01:02:03.045. -/
theorem L_LOG_decorated_witness :
    initState.logEnabled = true ∧
    L_LOG initState sampleTime "a.cpp" 12 "main" L_LEVEL.L_INFO "hello" =
      { initState with stdout := "2026-10-30 01:02:03.045 [Info] a.cpp:12:main():hello\n" } :=
  ⟨rfl, by
    rw [(L_LOG_decorated initState sampleTime "a.cpp" 12 "main" "hello" rfl).2.2.1]
    decide!⟩

/-- Counterexample to C1 as stated: the `Error` call below writes `main():hello`, not
`main(): hello`. -/
theorem L_LOG_space_counterexample :
    (L_LOG initState sampleTime "a.cpp" 12 "main" L_LEVEL.L_ERROR "hello").stderr
      = "2026-10-30 01:02:03.045 [Error] a.cpp:12:main():hello\n" ∧
    (L_LOG initState sampleTime "a.cpp" 12 "main" L_LEVEL.L_ERROR "hello").stderr
      ≠ mkTimestamp sampleTime ++ " [" ++ "Error" ++ "] " ++ "a.cpp" ++ ":" ++ fmtInt 12 ++ ":"
          ++ "main" ++ "(): " ++ "hello" ++ "\n" := by
  decide!

/-- C2 (as amended): an enabled call `LOG_PROGRESS(0, 100, true)`, at any clock reading
and for any stored last-logged second, writes the progress line showing percentage 0, a
bar of 30 blanks and the text `0/100` whenever the stored last-emitted percentage is not
0; when it is 0, as in the initial state, the call writes nothing. -/
theorem progress_zero_of_hundred (s : LogState) (now : ℤ) (tp : TimePoint)
    (h : s.logEnabled = true) :
    (s.lastPercentage ≠ 0 →
      LOG_PROGRESS s now tp 0 100 true =
        some { s with
          lastlogtime := max s.lastlogtime now
          lastPercentage := 0
          stdout := s.stdout ++ "[Progress]   0% [                              ] 0/100 \r" }) ∧
    (s.lastPercentage = 0 →
      LOG_PROGRESS s now tp 0 100 true = some { s with lastlogtime := max s.lastlogtime now }) := by
  have ht : substTotal 0 100 = some 100 := by decide
  have hp : computePercentage 0 100 = 0 := by decide!
  constructor
  · intro hne
    have hd : f32ToInt (f32Mul (computePercentage 0 100) 30) = some 0 := by decide!
    have hl : progressLine (computePercentage 0 100) 0 0 100
        = "[Progress]   0% [                              ] 0/100 \r" := by decide!
    rw [LOG_PROGRESS_renders s now tp 0 100 100 0 true h (Or.inr rfl) ht
      (by rw [hp]; exact fun e => hne e.symm) hd, hl, hp]
  · intro he
    rw [LOG_PROGRESS_passed s now tp 0 100 true h (Or.inr rfl)]
    exact progressBody_same _ tp 0 100 100 ht (by rw [hp]; exact he.symm)

/-- Witness of C2: the call in a state whose stored percentage is one half. -/
theorem progress_zero_of_hundred_witness :
    ({ initState with lastPercentage := 1 / 2 } : LogState).logEnabled = true ∧
    ({ initState with lastPercentage := 1 / 2 } : LogState).lastPercentage ≠ 0 ∧
    LOG_PROGRESS { initState with lastPercentage := 1 / 2 } 5 sampleTime 0 100 true =
      some { initState with
        lastlogtime := 5
        stdout := "[Progress]   0% [                              ] 0/100 \r" } :=
  ⟨rfl, by decide!, by
    rw [(progress_zero_of_hundred { initState with lastPercentage := 1 / 2 } 5 sampleTime rfl).1
      (by decide!)]
    decide!⟩

/-- Counterexample to C2 as stated: in the initial state (stored percentage 0.0) the
call `LOG_PROGRESS(0, 100, true)` writes nothing. -/
theorem progress_zero_initial_counterexample :
    LOG_PROGRESS initState 5 sampleTime 0 100 true = some { initState with lastlogtime := 5 } ∧
    (LOG_PROGRESS initState 5 sampleTime 0 100 true).map LogState.stdout = some "" := by
  decide!

/-- C3 (as amended): for every `total > 0` and every `done` with `0 <= done <= total`
the percentage computed as `done / total` lies in `[0, 1]`; the number printed by
`%3.0f` then lies between 0 and 100 and the number of `=` cells between 0 and 30. -/
theorem percentage_in_unit_interval (done total : ℤ) (h0 : 0 ≤ done) (h1 : done ≤ total)
    (ht : 0 < total) :
    0 ≤ computePercentage done total ∧ computePercentage done total ≤ 1 ∧
    0 ≤ f32Mul (computePercentage done total) 100 ∧
    roundHalfEven |f32Mul (computePercentage done total) 100| ≤ 100 ∧
    ∃ dotz, f32ToInt (f32Mul (computePercentage done total) (f32OfInt 30)) = some dotz ∧
      0 ≤ dotz ∧ dotz ≤ 30 := by
  obtain ⟨hp0, hp1⟩ := computePercentage_unit_interval done total h0 h1 ht
  have a0 : 0 ≤ f32Mul (computePercentage done total) 100 := by
    have := f32Round_mono 0 (computePercentage done total * 100) (by linarith)
    rw [f32Round_zero] at this
    exact this
  have a1 : f32Mul (computePercentage done total) 100 ≤ 100 := by
    have := f32Round_mono (computePercentage done total * 100) 100 (by linarith)
    rw [f32Round_hundred] at this
    exact this
  have b0 : 0 ≤ f32Mul (computePercentage done total) 30 := by
    have := f32Round_mono 0 (computePercentage done total * 30) (by linarith)
    rw [f32Round_zero] at this
    exact this
  have b1 : f32Mul (computePercentage done total) 30 ≤ 30 := by
    have := f32Round_mono (computePercentage done total * 30) 30 (by linarith)
    rw [f32Round_thirty] at this
    exact this
  refine ⟨hp0, hp1, a0, ?_, ?_⟩
  · rw [abs_of_nonneg a0]
    have := roundHalfEven_mono _ 100 a1
    have e : roundHalfEven (100 : ℚ) = 100 := by
      have := roundHalfEven_intCast 100
      simpa using this
    omega
  · rw [f32OfInt_thirty]
    have t0 : 0 ≤ truncQ (f32Mul (computePercentage done total) 30) := by
      rw [truncQ_of_nonneg _ b0]; exact Int.floor_nonneg.mpr b0
    have t1 : truncQ (f32Mul (computePercentage done total) 30) ≤ 30 := by
      rw [truncQ_of_nonneg _ b0]
      have : ⌊f32Mul (computePercentage done total) 30⌋ ≤ ⌊(30 : ℚ)⌋ := Int.floor_mono b1
      have e : ⌊(30 : ℚ)⌋ = 30 := by
        exact_mod_cast Int.floor_intCast (30 : ℤ)
      omega
    refine ⟨truncQ (f32Mul (computePercentage done total) 30), ?_, t0, t1⟩
    unfold f32ToInt
    rw [if_pos]
    constructor
    · have : INT_MIN ≤ 0 := by decide
      omega
    · have : (30 : ℤ) ≤ INT_MAX := by decide
      omega

/-- Witness of C3: 5 of 6 gives the binary32 value nearest to 5/6, which lies in `[0, 1]`. -/
theorem percentage_in_unit_interval_witness :
    (0 : ℤ) ≤ 5 ∧ (5 : ℤ) ≤ 6 ∧ (0 : ℤ) < 6 ∧
    computePercentage 5 6 = 13981013 / 16777216 ∧
    0 ≤ computePercentage 5 6 ∧ computePercentage 5 6 ≤ 1 :=
  ⟨by decide, by decide, by decide, by decide!,
    (percentage_in_unit_interval 5 6 (by decide) (by decide) (by decide)).1,
    (percentage_in_unit_interval 5 6 (by decide) (by decide) (by decide)).2.1⟩

/-- Counterexample to C3 as stated: `done = 200`, `total = 100` has `total > 0` and the
percentage 2, outside `[0, 1]`; the line shows 200%. -/
theorem percentage_above_one_counterexample :
    (0 : ℤ) < 100 ∧ computePercentage 200 100 = 2 ∧
    ¬ (0 ≤ computePercentage 200 100 ∧ computePercentage 200 100 ≤ 1) ∧
    (LOG_PROGRESS initState 5 sampleTime 200 100 false).map LogState.stdout
      = some "[Progress] 200% [==============================] 200/100 \r" := by
  decide!

/-- C4: while the enabled flag is false, every `L_LOG` call and every `LOG_PROGRESS`
call returns the state it was given: nothing is written to either stream and the flag,
the last-logged second and the last-emitted percentage keep their values. -/
theorem disabled_calls_are_noops (s : LogState) (h : s.logEnabled = false) :
    (∀ (tp : TimePoint) (file : String) (line : ℤ) (fn : String) (level : L_LEVEL)
        (m : String), L_LOG s tp file line fn level m = s) ∧
    (∀ (now : ℤ) (tp : TimePoint) (done total : ℤ) (forceOutput : Bool),
        LOG_PROGRESS s now tp done total forceOutput = some s) := by
  constructor
  · intro tp file line fn level m
    exact L_LOG_disabled s tp file line fn level m h
  · intro now tp done total forceOutput
    simp [LOG_PROGRESS, h]

/-- Witness of C4: the initial state after `LOG_DISABLE(true)`. -/
theorem disabled_calls_are_noops_witness :
    (LOG_DISABLE initState true).logEnabled = false ∧
    L_LOG (LOG_DISABLE initState true) sampleTime "a.cpp" 12 "main" (L_LEVEL.other 77) "hello"
      = LOG_DISABLE initState true ∧
    LOG_PROGRESS (LOG_DISABLE initState true) 5 sampleTime 50 100 true
      = some (LOG_DISABLE initState true) :=
  ⟨rfl,
    (disabled_calls_are_noops (LOG_DISABLE initState true) rfl).1 sampleTime "a.cpp" 12 "main"
      (L_LEVEL.other 77) "hello",
    (disabled_calls_are_noops (LOG_DISABLE initState true) rfl).2 5 sampleTime 50 100 true⟩

/-- C5: an enabled `L_LOG` call at level `Error` leaves standard output as it was and
appends its bytes to the error stream; at the levels `Warn`, `Info`, `Debug` and `Raw` it
leaves the error stream as it was and appends its bytes to standard output. -/
theorem L_LOG_stream_routing (s : LogState) (tp : TimePoint) (file : String) (line : ℤ)
    (fn m : String) (h : s.logEnabled = true) :
    ((L_LOG s tp file line fn L_LEVEL.L_ERROR m).stdout = s.stdout ∧
      ∃ w, (L_LOG s tp file line fn L_LEVEL.L_ERROR m).stderr = s.stderr ++ w) ∧
    ∀ level, level = L_LEVEL.L_WARN ∨ level = L_LEVEL.L_INFO ∨ level = L_LEVEL.L_DEBUG
        ∨ level = L_LEVEL.L_RAW →
      (L_LOG s tp file line fn level m).stderr = s.stderr ∧
      ∃ w, (L_LOG s tp file line fn level m).stdout = s.stdout ++ w := by
  refine ⟨⟨?_, ?_⟩, ?_⟩
  · simp [L_LOG, h, prdLogError]
  · exact ⟨_, by rw [L_LOG_error s tp file line fn m h]⟩
  · intro level hl
    rcases hl with rfl | rfl | rfl | rfl
    · exact ⟨by simp [L_LOG, h, prdLogWarn],
        _, by rw [L_LOG_warn s tp file line fn m h]⟩
    · exact ⟨by simp [L_LOG, h, prdLogInfo],
        _, by rw [L_LOG_info s tp file line fn m h]⟩
    · exact ⟨by simp [L_LOG, h, prdLogDebug],
        _, by rw [L_LOG_debug s tp file line fn m h]⟩
    · exact ⟨by simp [L_LOG, h, prdLogRaw], _, by rw [L_LOG_raw s tp file line fn m h]⟩

/-- Witness of C5 in the initial state. -/
theorem L_LOG_stream_routing_witness :
    initState.logEnabled = true ∧
    (L_LOG initState sampleTime "a.cpp" 12 "main" L_LEVEL.L_ERROR "hello").stdout = "" ∧
    (L_LOG initState sampleTime "a.cpp" 12 "main" L_LEVEL.L_WARN "hello").stderr = "" :=
  ⟨rfl,
    (L_LOG_stream_routing initState sampleTime "a.cpp" 12 "main" "hello" rfl).1.1,
    ((L_LOG_stream_routing initState sampleTime "a.cpp" 12 "main" "hello" rfl).2
      L_LEVEL.L_WARN (Or.inl rfl)).1⟩

/-- C6: for a level value `n` outside the five enumerators an `L_LOG` call yields the
same state as the call with level `Error`; when enabled it appends the `[Error]` line
to the error stream and leaves standard output alone. -/
theorem L_LOG_unknown_level_is_error (s : LogState) (tp : TimePoint) (file : String)
    (line : ℤ) (fn m : String) (n : ℤ) (h : s.logEnabled = true) :
    L_LOG s tp file line fn (L_LEVEL.other n) m = L_LOG s tp file line fn L_LEVEL.L_ERROR m ∧
    L_LOG s tp file line fn (L_LEVEL.other n) m =
      { s with stderr := s.stderr ++ (mkTimestamp tp ++ " [Error] " ++ file ++ ":"
          ++ fmtInt line ++ ":" ++ fn ++ "():" ++ m ++ "\n") } := by
  have e : L_LOG s tp file line fn (L_LEVEL.other n) m
      = L_LOG s tp file line fn L_LEVEL.L_ERROR m := by
    simp [L_LOG]
  exact ⟨e, by rw [e, L_LOG_error s tp file line fn m h]⟩

/-- Witness of C6: level value 77 in the initial state. -/
theorem L_LOG_unknown_level_is_error_witness :
    initState.logEnabled = true ∧
    L_LOG initState sampleTime "a.cpp" 12 "main" (L_LEVEL.other 77) "hello"
      = L_LOG initState sampleTime "a.cpp" 12 "main" L_LEVEL.L_ERROR "hello" :=
  ⟨rfl, (L_LOG_unknown_level_is_error initState sampleTime "a.cpp" 12 "main" "hello" 77 rfl).1⟩

/-- C7: an enabled `L_LOG` call at level `Raw` appends exactly the message to standard
output and changes nothing else (no timestamp, location or newline is written), so a
sequence of raw calls appends exactly the concatenation of their messages. -/
theorem L_LOG_raw_writes_message_only (s : LogState) (h : s.logEnabled = true) :
    (∀ (tp : TimePoint) (file : String) (line : ℤ) (fn m : String),
      L_LOG s tp file line fn L_LEVEL.L_RAW m = { s with stdout := s.stdout ++ m }) ∧
    ∀ calls : List LogArgs,
      rawCalls s calls = { s with stdout := s.stdout ++ String.join (calls.map fun c => c.msg) } :=
  ⟨fun tp file line fn m => L_LOG_raw s tp file line fn m h,
    fun calls => rawCalls_enabled calls s h⟩

/-- Witness of C7: two raw calls in the initial state. -/
theorem L_LOG_raw_writes_message_only_witness :
    initState.logEnabled = true ∧
    rawCalls initState [⟨sampleTime, "a.cpp", 1, "f", "ab"⟩, ⟨sampleTime, "b.cpp", 2, "g", "c\r"⟩]
      = { initState with stdout := "abc\r" } :=
  ⟨rfl, by
    rw [(L_LOG_raw_writes_message_only initState rfl).2]
    decide!⟩

/-- C8: every `LOG_PROGRESS` call that writes something writes, between `[` and `]`, a
bar of exactly 30 characters whose cell `i` is `=` when `i < floor(percentage * 30)` (the
binary32 product of the source) and a blank otherwise, so the bar is a run of `=`
followed by a run of blanks; with `done = 50`, `total = 100` the header shows ` 50%` and
the bar is 15 `=` followed by 15 blanks. -/
theorem progress_bar_cells (s s1 : LogState) (now : ℤ) (tp : TimePoint) (done total : ℤ)
    (forceOutput : Bool) (hr : LOG_PROGRESS s now tp done total forceOutput = some s1)
    (hw : s1.stdout ≠ s.stdout) :
    ∃ (total1 : ℤ) (bar : String),
      substTotal done total = some total1 ∧
      s1.stdout = s.stdout
        ++ ("[Progress] " ++ fmtF30 (f32Mul (computePercentage done total1) 100) ++ "% [")
        ++ bar ++ ("] " ++ fmtInt done ++ "/" ++ fmtInt total1 ++ " " ++ "\r") ∧
      bar.length = 30 ∧
      (∀ i : ℕ, i < 30 → bar.data[i]? =
        some (if (i : ℤ) < ⌊f32Mul (computePercentage done total1) 30⌋ then '=' else ' ')) ∧
      (∃ k : ℕ, k ≤ 30 ∧ bar = String.mk (List.replicate k '=' ++ List.replicate (30 - k) ' ')) ∧
      (done = 50 → total = 100 →
        fmtF30 (f32Mul (computePercentage done total1) 100) = " 50" ∧
        bar = "===============               ") := by
  have h : s.logEnabled = true := by
    by_contra hc
    have hf : s.logEnabled = false := by simpa using hc
    have : LOG_PROGRESS s now tp done total forceOutput = some s := by
      simp [LOG_PROGRESS, hf]
    rw [this] at hr
    exact hw (by rw [← Option.some.inj hr])
  rcases LOG_PROGRESS_cases s s1 now tp done total forceOutput h hr with
    ⟨_, _, e⟩ | ⟨_, total1, ht, ⟨_, e⟩ | ⟨_, dotz, hd, e⟩⟩
  · exact absurd (by rw [e]) hw
  · exact absurd (by rw [e]) hw
  · have hdz := f32ToInt_eq_some _ _ hd
    refine ⟨total1, barText dotz, ht, ?_, barText_length dotz, ?_, ?_, ?_⟩
    · rw [e]
      simp [progressLine, String.append_assoc]
    · intro i hi
      rw [barText_cell dotz i hi, hdz]
      simp only [lt_truncQ_iff]
    · refine ⟨min 30 dotz.toNat, Nat.min_le_left _ _, ?_⟩
      unfold barText
      rw [bar_cells_eq_replicate]
    · intro h50 h100
      subst h50 h100
      have e1 : substTotal 50 100 = some 100 := by decide
      rw [e1] at ht
      have e2 : total1 = 100 := (Option.some.inj ht).symm
      subst e2
      have e3 : f32ToInt (f32Mul (computePercentage 50 100) 30) = some 15 := by decide!
      rw [e3] at hd
      have e4 : dotz = 15 := (Option.some.inj hd).symm
      subst e4
      exact ⟨by decide!, by decide!⟩

/-- Witness of C8: the first call `LOG_PROGRESS(50, 100, false)` of a run. -/
theorem progress_bar_cells_witness :
    LOG_PROGRESS initState 5 sampleTime 50 100 false =
      some { initState with
        lastlogtime := 5
        lastPercentage := 1 / 2
        stdout := "[Progress]  50% [===============               ] 50/100 \r" } ∧
    ∃ (total1 : ℤ) (bar : String),
      substTotal 50 100 = some total1 ∧
      "[Progress]  50% [===============               ] 50/100 \r" = initState.stdout
        ++ ("[Progress] " ++ fmtF30 (f32Mul (computePercentage 50 total1) 100) ++ "% [")
        ++ bar ++ ("] " ++ fmtInt 50 ++ "/" ++ fmtInt total1 ++ " " ++ "\r") ∧
      bar.length = 30 ∧
      (∀ i : ℕ, i < 30 → bar.data[i]? =
        some (if (i : ℤ) < ⌊f32Mul (computePercentage 50 total1) 30⌋ then '=' else ' ')) ∧
      (∃ k : ℕ, k ≤ 30 ∧ bar = String.mk (List.replicate k '=' ++ List.replicate (30 - k) ' ')) ∧
      ((50 : ℤ) = 50 → (100 : ℤ) = 100 →
        fmtF30 (f32Mul (computePercentage 50 total1) 100) = " 50" ∧
        bar = "===============               ") :=
  ⟨by decide!,
    progress_bar_cells initState
      { initState with
        lastlogtime := 5
        lastPercentage := 1 / 2
        stdout := "[Progress]  50% [===============               ] 50/100 \r" }
      5 sampleTime 50 100 false (by decide!) (by decide!)⟩

/-- C9 (as amended): for every `LOG_PROGRESS` call with negative `total` and `done > 0`
(with `done * 2` representable in `long`), `total` is replaced by `done * 2` and the
computed percentage is exactly one half; when the call renders, the line shows ` 50%`,
15 of 30 cells and the trailer `done/(done * 2)`. -/
theorem unknown_total_shows_half (s : LogState) (now : ℤ) (tp : TimePoint) (done total : ℤ)
    (forceOutput : Bool) (h : s.logEnabled = true) (ht : total < 0) (hd : 0 < done)
    (hmax : done * 2 ≤ LONG_MAX) :
    substTotal done total = some (done * 2) ∧
    computePercentage done (done * 2) = 1 / 2 ∧
    ((s.lastlogtime < now ∨ forceOutput = true) → s.lastPercentage ≠ 1 / 2 →
      LOG_PROGRESS s now tp done total forceOutput =
        some { s with
          lastlogtime := max s.lastlogtime now
          lastPercentage := 1 / 2
          stdout := s.stdout ++ ("[Progress]  50% [===============               ] "
            ++ fmtInt done ++ "/" ++ fmtInt (done * 2) ++ " " ++ "\r") }) := by
  have hs : substTotal done total = some (done * 2) := by
    have hmin : LONG_MIN ≤ done * 2 := by
      have : LONG_MIN ≤ 0 := by decide
      omega
    simp [substTotal, ht, hmin, hmax]
  have hp := computePercentage_double done hd
  refine ⟨hs, hp, ?_⟩
  intro hpass hne
  have hz : f32ToInt (f32Mul (computePercentage done (done * 2)) 30) = some 15 := by
    rw [hp]; decide!
  rw [LOG_PROGRESS_renders s now tp done total (done * 2) 15 forceOutput h hpass hs
    (by rw [hp]; exact fun e => hne e.symm) hz, hp]
  have e1 : fmtF30 (f32Mul (1 / 2) 100) = " 50" := by decide!
  have e2 : barText 15 = "===============               " := by decide!
  have e3 : progressLine (1 / 2) 15 done (done * 2)
      = "[Progress]  50% [===============               ] "
        ++ fmtInt done ++ "/" ++ fmtInt (done * 2) ++ " " ++ "\r" := by
    unfold progressLine
    rw [e1, e2]
    have : "[Progress] " ++ " 50" ++ "% [" ++ "===============               " ++ "] "
        = "[Progress]  50% [===============               ] " := by decide
    rw [this]
  rw [e3]

/-- Witness of C9: `done = 10`, `total = -1` renders 50% and `10/20`. -/
theorem unknown_total_shows_half_witness :
    initState.logEnabled = true ∧ (-1 : ℤ) < 0 ∧ (0 : ℤ) < 10 ∧ (10 : ℤ) * 2 ≤ LONG_MAX ∧
    (initState.lastlogtime < 5 ∨ false = true) ∧ initState.lastPercentage ≠ 1 / 2 ∧
    LOG_PROGRESS initState 5 sampleTime 10 (-1) false =
      some { initState with
        lastlogtime := 5
        lastPercentage := 1 / 2
        stdout := "[Progress]  50% [===============               ] 10/20 \r" } :=
  ⟨rfl, by decide, by decide, by decide, Or.inl (by decide), by decide!, by
    rw [(unknown_total_shows_half initState 5 sampleTime 10 (-1) false rfl (by decide)
      (by decide) (by decide)).2.2 (Or.inl (by decide)) (by decide!)]
    decide!⟩

/-- Counterexample to C9 as stated: with `total = -1` and `done = 0` the substituted
total is 0 and the percentage is 0, not one half; after a 50% line the call renders 0%
and `0/0`. -/
theorem unknown_total_zero_done_counterexample :
    substTotal 0 (-1) = some 0 ∧ computePercentage 0 0 = 0 ∧
    computePercentage 0 0 ≠ 1 / 2 ∧
    (LOG_PROGRESS initState 5 sampleTime 50 100 false).bind
        (fun s1 => LOG_PROGRESS s1 6 sampleTime 0 (-1) false) =
      some { initState with
        lastlogtime := 6
        lastPercentage := 0
        stdout := "[Progress]  50% [===============               ] 50/100 \r"
          ++ "[Progress]   0% [                              ] 0/0 \r" } := by
  decide!

/-- C10: after an enabled `LOG_PROGRESS` call made at clock second `now`, a call at the
same second with `forceOutput = false` returns the state unchanged, whatever its `done`
and `total`; and in every sequence of non-forced calls (the clock readings need not even
be ordered) no two calls that write something carry the same clock second. -/
theorem progress_once_per_second (s : LogState) (h : s.logEnabled = true) :
    (∀ (now : ℤ) (tp1 : TimePoint) (done1 total1 : ℤ) (force1 : Bool) (s1 : LogState),
      LOG_PROGRESS s now tp1 done1 total1 force1 = some s1 →
      ∀ (tp2 : TimePoint) (done2 total2 : ℤ),
        LOG_PROGRESS s1 now tp2 done2 total2 false = some s1) ∧
    (∀ (calls : List ProgressArgs) (l : List ℤ),
      (∀ c ∈ calls, c.forceOutput = false) → renderedSeconds s calls = some l → l.Nodup) := by
  constructor
  · intro now tp1 done1 total1 force1 s1 hr tp2 done2 total2
    obtain ⟨he, hnow⟩ := LOG_PROGRESS_step_time s s1 now tp1 done1 total1 force1 h hr
    exact LOG_PROGRESS_throttled s1 now tp2 done2 total2 he (not_lt.mpr hnow)
  · intro calls l hf hr
    exact (renderedSeconds_increasing calls s l h hf hr).2.imp (fun hab => ne_of_lt hab)

/-- Witness of C10: two calls in second 5 and one in second 6; only the first call of
each second writes. -/
theorem progress_once_per_second_witness :
    initState.logEnabled = true ∧
    LOG_PROGRESS initState 5 sampleTime 10 100 true =
      some { initState with
        lastlogtime := 5
        lastPercentage := 13421773 / 134217728
        stdout := "[Progress]  10% [===                           ] 10/100 \r" } ∧
    LOG_PROGRESS
        { initState with
          lastlogtime := 5
          lastPercentage := 13421773 / 134217728
          stdout := "[Progress]  10% [===                           ] 10/100 \r" }
        5 sampleTime 50 100 false =
      some { initState with
        lastlogtime := 5
        lastPercentage := 13421773 / 134217728
        stdout := "[Progress]  10% [===                           ] 10/100 \r" } ∧
    renderedSeconds initState
        [⟨5, sampleTime, 10, 100, false⟩, ⟨5, sampleTime, 50, 100, false⟩,
          ⟨6, sampleTime, 60, 100, false⟩] = some [5, 6] ∧
    ([5, 6] : List ℤ).Nodup :=
  ⟨rfl, by decide!,
    (progress_once_per_second initState rfl).1 5 sampleTime 10 100 true _ (by decide!)
      sampleTime 50 100,
    by decide!,
    (progress_once_per_second initState rfl).2
      [⟨5, sampleTime, 10, 100, false⟩, ⟨5, sampleTime, 50, 100, false⟩,
        ⟨6, sampleTime, 60, 100, false⟩] [5, 6] (by decide) (by decide!)⟩

/-- C11: an enabled `LOG_PROGRESS` call that passes the time throttle (the stored second
is earlier than `now`, or `forceOutput` is set) writes something if and only if the
percentage it computes differs from the stored last-emitted percentage: with an equal
percentage it only updates the stored second, even when forced; with a different one it
appends the progress line and stores the new percentage. -/
theorem progress_renders_iff_percentage_changed (s : LogState) (now : ℤ) (tp : TimePoint)
    (done total total1 : ℤ) (forceOutput : Bool) (h : s.logEnabled = true)
    (hpass : s.lastlogtime < now ∨ forceOutput = true)
    (ht : substTotal done total = some total1) :
    (computePercentage done total1 = s.lastPercentage →
      LOG_PROGRESS s now tp done total forceOutput =
        some { s with lastlogtime := max s.lastlogtime now }) ∧
    (computePercentage done total1 ≠ s.lastPercentage →
      ∀ dotz, f32ToInt (f32Mul (computePercentage done total1) 30) = some dotz →
        LOG_PROGRESS s now tp done total forceOutput =
          some { s with
            lastlogtime := max s.lastlogtime now
            lastPercentage := computePercentage done total1
            stdout := s.stdout
              ++ progressLine (computePercentage done total1) dotz done total1 }) ∧
    (∀ s1, LOG_PROGRESS s now tp done total forceOutput = some s1 →
      (s1.stdout ≠ s.stdout ↔ computePercentage done total1 ≠ s.lastPercentage)) := by
  refine ⟨?_, ?_, ?_⟩
  · intro he
    rw [LOG_PROGRESS_passed s now tp done total forceOutput h hpass]
    exact progressBody_same _ tp done total total1 ht he
  · intro hne dotz hd
    exact LOG_PROGRESS_renders s now tp done total total1 dotz forceOutput h hpass ht hne hd
  · intro s1 hr
    rcases LOG_PROGRESS_cases s s1 now tp done total forceOutput h hr with
      ⟨hn, hf, _⟩ | ⟨_, t1, ht1, ⟨he, e⟩ | ⟨hne, dotz, _, e⟩⟩
    · rcases hpass with h1 | h1
      · exact absurd h1 hn
      · rw [hf] at h1
        exact absurd h1 (by simp)
    · have et : t1 = total1 := Option.some.inj (ht1.symm.trans ht)
      subst et
      constructor
      · intro hw
        exact absurd (by rw [e]) hw
      · intro hne
        exact absurd he hne
    · have et : t1 = total1 := Option.some.inj (ht1.symm.trans ht)
      subst et
      constructor
      · intro _
        exact hne
      · intro _
        rw [e]
        exact String_append_ne_self _ _ (progressLine_length_pos _ _ _ _)

/-- Witness of C11: after a 50% line, a forced call in the same second with the same
numbers writes nothing, and one with 60 of 100 writes the 60% line. -/
theorem progress_renders_iff_percentage_changed_witness :
    ({ initState with lastlogtime := 5, lastPercentage := 1 / 2 } : LogState).logEnabled = true ∧
    substTotal 50 100 = some 100 ∧
    computePercentage 50 100 = 1 / 2 ∧
    LOG_PROGRESS { initState with lastlogtime := 5, lastPercentage := 1 / 2 } 5 sampleTime
        50 100 true =
      some { initState with lastlogtime := 5, lastPercentage := 1 / 2 } ∧
    LOG_PROGRESS { initState with lastlogtime := 5, lastPercentage := 1 / 2 } 5 sampleTime
        60 100 true =
      some { initState with
        lastlogtime := 5
        lastPercentage := 5033165 / 8388608
        stdout := "[Progress]  60% [==================            ] 60/100 \r" } :=
  ⟨rfl, by decide, by decide!, by
    rw [(progress_renders_iff_percentage_changed
      { initState with lastlogtime := 5, lastPercentage := 1 / 2 } 5 sampleTime 50 100 100 true
      rfl (Or.inr rfl) (by decide)).1 (by decide!)]
    decide!, by decide!⟩

/-- C12: `LOG_DISABLE(b)` sets the enabled flag to the negation of `b` and changes
nothing else; calling it twice with the same argument gives the state of calling it
once, and after any sequence of setter calls the state is the one a single call with the
last argument gives. -/
theorem LOG_DISABLE_sets_flag (s : LogState) (b : Bool) :
    LOG_DISABLE s b = { s with logEnabled := !b } ∧
    LOG_DISABLE (LOG_DISABLE s b) b = LOG_DISABLE s b ∧
    ∀ bs : List Bool, (bs ++ [b]).foldl LOG_DISABLE s = LOG_DISABLE s b := by
  refine ⟨rfl, rfl, ?_⟩
  intro bs
  rw [List.foldl_append]
  simp only [List.foldl_cons, List.foldl_nil]
  have frame : ∀ (l : List Bool) (t : LogState),
      LOG_DISABLE (l.foldl LOG_DISABLE t) b = LOG_DISABLE t b := by
    intro l
    induction l with
    | nil => intro t; rfl
    | cons a l ih =>
      intro t
      rw [List.foldl_cons, ih]
      rfl
  exact frame bs s

/-- C13: for every valid clock reading the timestamp `L_LOG` builds is the 23-character
text `YYYY-MM-DD HH:MM:SS.mmm`: the 20 characters of the date and time, each field
zero-padded, ending in `.`, then the three decimal digits of the millisecond count
modulo 1000; with its terminator it fills the 24-byte buffer exactly. -/
theorem timestamp_fixed_width (tp : TimePoint) (h : ValidTimePoint tp) :
    mkTimestamp tp = String.mk
      [digitAt (tp.localtime.tm_year + 1900) 3, digitAt (tp.localtime.tm_year + 1900) 2,
        digitAt (tp.localtime.tm_year + 1900) 1, digitAt (tp.localtime.tm_year + 1900) 0, '-',
        digitAt (tp.localtime.tm_mon + 1) 1, digitAt (tp.localtime.tm_mon + 1) 0, '-',
        digitAt tp.localtime.tm_mday 1, digitAt tp.localtime.tm_mday 0, ' ',
        digitAt tp.localtime.tm_hour 1, digitAt tp.localtime.tm_hour 0, ':',
        digitAt tp.localtime.tm_min 1, digitAt tp.localtime.tm_min 0, ':',
        digitAt tp.localtime.tm_sec 1, digitAt tp.localtime.tm_sec 0, '.',
        digitAt (tp.millis % 1000) 2, digitAt (tp.millis % 1000) 1,
        digitAt (tp.millis % 1000) 0] ∧
    (mkTimestamp tp).length = 23 ∧
    (mkTimestamp tp).length + 1 = timestampSize := by
  have e := mkTimestamp_valid tp h
  refine ⟨e, ?_, ?_⟩
  · rw [e]; rfl
  · rw [e]; rfl

/-- Witness of C13: the reading 2026-10-30 01:02:03.045. -/
theorem timestamp_fixed_width_witness :
    ValidTimePoint sampleTime ∧ mkTimestamp sampleTime = "2026-10-30 01:02:03.045" ∧
    (mkTimestamp sampleTime).length = 23 :=
  ⟨by decide, by decide!, (timestamp_fixed_width sampleTime (by decide)).2.1⟩

/-- C14: every `LOG_PROGRESS` call that writes something appends to standard output
exactly `[Progress] ` ++ the `%3.0f` text of percentage * 100 (at least 3 wide) ++ `% [`
++ the 30-character bar ++ `] ` ++ done ++ `/` ++ total ++ one blank ++ carriage
return, `total` being the variable as line 139 prints it (after the substitution of
line 118); the error stream is untouched, the text has no newline and ends in the
carriage return. -/
theorem progress_line_bytes (s s1 : LogState) (now : ℤ) (tp : TimePoint) (done total : ℤ)
    (forceOutput : Bool) (hr : LOG_PROGRESS s now tp done total forceOutput = some s1)
    (hw : s1.stdout ≠ s.stdout) :
    ∃ (total1 dotz : ℤ),
      substTotal done total = some total1 ∧
      f32ToInt (f32Mul (computePercentage done total1) (f32OfInt 30)) = some dotz ∧
      s1.stdout = s.stdout ++
        ("[Progress] " ++ fmtF30 (f32Mul (computePercentage done total1) 100) ++ "% ["
          ++ barText dotz ++ "] " ++ fmtInt done ++ "/" ++ fmtInt total1 ++ " " ++ "\r") ∧
      s1.stderr = s.stderr ∧
      3 ≤ (fmtF30 (f32Mul (computePercentage done total1) 100)).length ∧
      (barText dotz).length = 30 ∧
      (∀ c ∈ ("[Progress] " ++ fmtF30 (f32Mul (computePercentage done total1) 100) ++ "% ["
          ++ barText dotz ++ "] " ++ fmtInt done ++ "/" ++ fmtInt total1 ++ " " ++ "\r").data,
        c ≠ '\n') ∧
      ("[Progress] " ++ fmtF30 (f32Mul (computePercentage done total1) 100) ++ "% ["
          ++ barText dotz ++ "] " ++ fmtInt done ++ "/" ++ fmtInt total1 ++ " " ++ "\r").data.getLast?
        = some '\r' := by
  have h : s.logEnabled = true := by
    by_contra hc
    have hf : s.logEnabled = false := by simpa using hc
    rw [LOG_PROGRESS_of_disabled s now tp done total forceOutput hf] at hr
    exact hw (by rw [← Option.some.inj hr])
  rcases LOG_PROGRESS_cases s s1 now tp done total forceOutput h hr with
    ⟨_, _, e⟩ | ⟨_, total1, ht, ⟨_, e⟩ | ⟨_, dotz, hd, e⟩⟩
  · exact absurd (by rw [e]) hw
  · exact absurd (by rw [e]) hw
  · refine ⟨total1, dotz, ht, by rw [f32OfInt_thirty]; exact hd, by rw [e]; rfl, by rw [e],
      fmtF30_length _, barText_length dotz, ?_, ?_⟩
    · exact progressLine_no_newline (computePercentage done total1) dotz done total1
    · exact progressLine_last (computePercentage done total1) dotz done total1

/-- Witness of C14: the first call `LOG_PROGRESS(5, 6, false)` of a run. -/
theorem progress_line_bytes_witness :
    LOG_PROGRESS initState 5 sampleTime 5 6 false =
      some { initState with
        lastlogtime := 5
        lastPercentage := 13981013 / 16777216
        stdout := "[Progress]  83% [=========================     ] 5/6 \r" } ∧
    ∃ (total1 dotz : ℤ),
      substTotal 5 6 = some total1 ∧
      f32ToInt (f32Mul (computePercentage 5 total1) (f32OfInt 30)) = some dotz ∧
      "[Progress]  83% [=========================     ] 5/6 \r" = initState.stdout ++
        ("[Progress] " ++ fmtF30 (f32Mul (computePercentage 5 total1) 100) ++ "% ["
          ++ barText dotz ++ "] " ++ fmtInt 5 ++ "/" ++ fmtInt total1 ++ " " ++ "\r") :=
  ⟨by decide!, by
    obtain ⟨total1, dotz, h1, h2, h3, _⟩ := progress_line_bytes initState
      { initState with
        lastlogtime := 5
        lastPercentage := 13981013 / 16777216
        stdout := "[Progress]  83% [=========================     ] 5/6 \r" }
      5 sampleTime 5 6 false (by decide!) (by decide!)
    exact ⟨total1, dotz, h1, h2, h3⟩⟩

/-- C15: when `total`, after the substitution for a negative total, is not positive
(`total = 0`, or `total < 0` with `done <= 0`, `done * 2` being representable), lines
119-122 evaluate no division: the percentage is 0 whatever the division operator would
do, even one that fails on every operand.  An enabled call that passes the throttle
therefore returns normally although a division by zero is undefined in the model:
it writes nothing when the stored percentage is 0 and the 0% line otherwise.  Whenever
the division is evaluated its divisor is at least 1. -/
theorem nonpositive_total_gives_zero (done total : ℤ)
    (hcase : total = 0 ∨ (total < 0 ∧ done ≤ 0 ∧ LONG_MIN ≤ done * 2)) :
    ∃ total1, substTotal done total = some total1 ∧ total1 ≤ 0 ∧
      (∀ div : ℚ → ℚ → Option ℚ, percentageWith div done total1 = some 0) ∧
      computePercentage done total1 = 0 ∧
      (∀ (s : LogState) (now : ℤ) (tp : TimePoint) (forceOutput : Bool),
        s.logEnabled = true → (s.lastlogtime < now ∨ forceOutput = true) →
        LOG_PROGRESS s now tp done total forceOutput =
          some (if s.lastPercentage = 0 then { s with lastlogtime := max s.lastlogtime now }
            else { s with
              lastlogtime := max s.lastlogtime now
              lastPercentage := 0
              stdout := s.stdout ++ progressLine 0 0 done total1 })) ∧
      (∀ t : ℤ, 0 < t → computePercentage done t = f32Div (f32OfInt done) (f32OfInt t) ∧
        1 ≤ f32OfInt t) := by
  have hsub : ∃ total1, substTotal done total = some total1 ∧ total1 ≤ 0 := by
    rcases hcase with h0 | ⟨h1, h2, h3⟩
    · exact ⟨0, by simp [substTotal, h0], le_refl 0⟩
    · refine ⟨done * 2, ?_, by omega⟩
      have hmax : done * 2 ≤ LONG_MAX := by
        have : (0 : ℤ) ≤ LONG_MAX := by decide
        omega
      simp [substTotal, h1, h3, hmax]
  obtain ⟨total1, ht, hle⟩ := hsub
  have hw : ∀ div : ℚ → ℚ → Option ℚ, percentageWith div done total1 = some 0 := by
    intro div
    unfold percentageWith
    rw [if_neg (not_lt.mpr hle)]
  have hp : computePercentage done total1 = 0 := by
    have h1 := percentageWith_checked done total1
    rw [hw f32DivChecked] at h1
    exact (Option.some.inj h1).symm
  refine ⟨total1, ht, hle, hw, hp, ?_, ?_⟩
  · intro s now tp forceOutput h hpass
    by_cases hz : s.lastPercentage = 0
    · rw [if_pos hz, LOG_PROGRESS_passed s now tp done total forceOutput h hpass]
      exact progressBody_same _ tp done total total1 ht (by rw [hp]; exact hz.symm)
    · rw [if_neg hz]
      have hd : f32ToInt (f32Mul (computePercentage done total1) 30) = some 0 := by
        rw [hp]; decide!
      rw [LOG_PROGRESS_renders s now tp done total total1 0 forceOutput h hpass ht
        (by rw [hp]; exact fun e => hz e.symm) hd, hp]
  · intro t ht0
    exact ⟨by simp [computePercentage, ht0], f32OfInt_pos_ge_one t ht0⟩

/-- Witness of C15: with `done = 0`, `total = 0` the quotient `(float)done / total` is
undefined, yet the percentage is 0 under every division operator, and the call after a
50% line renders 0% and `0/0`. -/
theorem nonpositive_total_gives_zero_witness :
    ((0 : ℤ) = 0 ∨ ((0 : ℤ) < 0 ∧ (0 : ℤ) ≤ 0 ∧ LONG_MIN ≤ 0 * 2)) ∧
    f32DivChecked (f32OfInt 0) (f32OfInt 0) = none ∧
    (∃ total1, substTotal 0 0 = some total1 ∧ total1 ≤ 0 ∧
      (∀ div : ℚ → ℚ → Option ℚ, percentageWith div 0 total1 = some 0) ∧
      computePercentage 0 total1 = 0) ∧
    percentageWith (fun _ _ => none) 0 0 = some 0 ∧
    LOG_PROGRESS { initState with lastlogtime := 5, lastPercentage := 1 / 2 } 6 sampleTime
        0 0 false =
      some { initState with
        lastlogtime := 6
        stdout := "[Progress]   0% [                              ] 0/0 \r" } :=
  ⟨Or.inl rfl, by decide!, by
    obtain ⟨t, h1, h2, h3, h4, _⟩ := nonpositive_total_gives_zero 0 0 (Or.inl rfl)
    exact ⟨t, h1, h2, h3, h4⟩, by decide!, by decide!⟩

/-- C16: along every sequence of `LOG_DISABLE`, `L_LOG` and `LOG_PROGRESS` calls, with
arbitrary clock readings, the stored last-logged second never decreases; and right
after an enabled `LOG_PROGRESS` call made at `now` it is the larger of its old value
and `now`: at least `now`, equal to `now` when it was earlier, unchanged otherwise,
whether or not the call wrote anything. -/
theorem lastlogtime_never_decreases (s s2 : LogState) (cs1 cs2 : List Call)
    (hr : run s (cs1 ++ cs2) = some s2) :
    (∃ s1, run s cs1 = some s1 ∧ run s1 cs2 = some s2 ∧
      s.lastlogtime ≤ s1.lastlogtime ∧ s1.lastlogtime ≤ s2.lastlogtime) ∧
    (∀ (now : ℤ) (tp : TimePoint) (done total : ℤ) (forceOutput : Bool) (s3 : LogState),
      s2.logEnabled = true → LOG_PROGRESS s2 now tp done total forceOutput = some s3 →
      now ≤ s3.lastlogtime ∧ s2.lastlogtime ≤ s3.lastlogtime ∧
      (s2.lastlogtime < now → s3.lastlogtime = now) ∧
      (¬ s2.lastlogtime < now → s3.lastlogtime = s2.lastlogtime)) := by
  constructor
  · rw [run_append] at hr
    cases h1 : run s cs1 with
    | none => simp [h1] at hr
    | some s1 =>
      simp only [h1, Option.some_bind] at hr
      exact ⟨s1, rfl, hr, run_lastlogtime_le cs1 s s1 h1, run_lastlogtime_le cs2 s1 s2 hr⟩
  · intro now tp done total forceOutput s3 he h3
    have e := LOG_PROGRESS_lastlogtime s2 s3 now tp done total forceOutput he h3
    rw [e]
    exact ⟨le_max_right _ _, le_max_left _ _, fun hlt => max_eq_right hlt.le,
      fun hge => max_eq_left (not_lt.mp hge)⟩

/-- Witness of C16: a progress call at second 9, a log line, a disable/enable pair, and
progress calls at the earlier second 4 and at second 9 again. -/
theorem lastlogtime_never_decreases_witness :
    run initState
        ([Call.progress 9 sampleTime 10 100 false,
          Call.log sampleTime "a.cpp" 12 "main" L_LEVEL.L_INFO "hello"] ++
         [Call.disable true, Call.disable false,
          Call.progress 4 sampleTime 20 100 true]) =
      some { initState with
        lastlogtime := 9
        lastPercentage := 13421773 / 67108864
        stdout := "[Progress]  10% [===                           ] 10/100 \r"
          ++ "2026-10-30 01:02:03.045 [Info] a.cpp:12:main():hello\n"
          ++ "[Progress]  20% [======                        ] 20/100 \r" } ∧
    ∃ s1, run initState
        [Call.progress 9 sampleTime 10 100 false,
          Call.log sampleTime "a.cpp" 12 "main" L_LEVEL.L_INFO "hello"] = some s1 ∧
      initState.lastlogtime ≤ s1.lastlogtime ∧ s1.lastlogtime ≤ 9 :=
  ⟨by decide!, by
    obtain ⟨⟨s1, h1, _, h3, h4⟩, _⟩ := lastlogtime_never_decreases initState
      { initState with
        lastlogtime := 9
        lastPercentage := 13421773 / 67108864
        stdout := "[Progress]  10% [===                           ] 10/100 \r"
          ++ "2026-10-30 01:02:03.045 [Info] a.cpp:12:main():hello\n"
          ++ "[Progress]  20% [======                        ] 20/100 \r" }
      [Call.progress 9 sampleTime 10 100 false,
        Call.log sampleTime "a.cpp" 12 "main" L_LEVEL.L_INFO "hello"]
      [Call.disable true, Call.disable false, Call.progress 4 sampleTime 20 100 true]
      (by decide!)
    exact ⟨s1, h1, h3, h4⟩⟩

/-- C17: in every state reached from the initial state the stored last-emitted
percentage is the percentage of the most recently written progress line, or 0 when none
was written; a call changes it exactly when it writes a progress line, to the percentage
of that line; no two consecutively written lines carry the same percentage (and the
first is not 0); and repeating a call that wrote a line, with the same `done` and
`total`, right afterwards writes nothing for any `forceOutput` and any clock reading. -/
theorem lastPercentage_tracks_rendered (cs : List Call) (s1 : LogState)
    (hr : run initState cs = some s1) :
    (∃ l, renderedPercentages initState cs = some l ∧
      s1.lastPercentage = l.getLast?.getD 0 ∧ List.Chain (fun a b => a ≠ b) 0 l) ∧
    (∀ (c : Call) (s2 : LogState), step s1 c = some s2 →
      (renderedPercentage s1 c = none ∧ s2.lastPercentage = s1.lastPercentage) ∨
      (∃ p, renderedPercentage s1 c = some p ∧ s2.lastPercentage = p ∧
        p ≠ s1.lastPercentage)) ∧
    (∀ (now : ℤ) (tp : TimePoint) (done total : ℤ) (forceOutput : Bool) (s2 : LogState),
      LOG_PROGRESS s1 now tp done total forceOutput = some s2 → s2.stdout ≠ s1.stdout →
      ∀ (now2 : ℤ) (tp2 : TimePoint) (force2 : Bool),
        ∃ s3, LOG_PROGRESS s2 now2 tp2 done total force2 = some s3 ∧
          s3.stdout = s2.stdout ∧ s3.stderr = s2.stderr ∧
          s3.lastPercentage = s2.lastPercentage) := by
  obtain ⟨l, hl⟩ := renderedPercentages_defined cs initState s1 hr
  obtain ⟨i1, i2⟩ := run_lastPercentage cs initState s1 l hr hl
  refine ⟨⟨l, hl, i1, i2⟩, fun c s2 hs => step_lastPercentage s1 s2 c hs, ?_⟩
  intro now tp done total forceOutput s2 h2 hw now2 tp2 force2
  have he : s1.logEnabled = true := by
    by_contra hc
    have hf : s1.logEnabled = false := by simpa using hc
    rw [LOG_PROGRESS_of_disabled s1 now tp done total forceOutput hf] at h2
    exact hw (by rw [← Option.some.inj h2])
  rcases LOG_PROGRESS_cases s1 s2 now tp done total forceOutput he h2 with
    ⟨_, _, e⟩ | ⟨_, total1, ht, ⟨_, e⟩ | ⟨_, dotz, _, e⟩⟩
  · exact absurd (by rw [e]) hw
  · exact absurd (by rw [e]) hw
  · have he2 : s2.logEnabled = true := by rw [e]; exact he
    have hp2 : computePercentage done total1 = s2.lastPercentage := by rw [e]
    by_cases hpass : s2.lastlogtime < now2 ∨ force2 = true
    · refine ⟨{ s2 with lastlogtime := max s2.lastlogtime now2 }, ?_, rfl, rfl, rfl⟩
      rw [LOG_PROGRESS_passed s2 now2 tp2 done total force2 he2 hpass]
      exact progressBody_same _ tp2 done total total1 ht hp2
    · refine ⟨s2, ?_, rfl, rfl, rfl⟩
      have hn : ¬ s2.lastlogtime < now2 := fun hc => hpass (Or.inl hc)
      have hf : force2 = false := by
        cases force2 with
        | false => rfl
        | true => exact absurd (Or.inr rfl) hpass
      subst hf
      exact LOG_PROGRESS_throttled s2 now2 tp2 done total he2 hn

/-- Witness of C17: lines for 10%, (suppressed 10% again,) 20% and 10%. -/
theorem lastPercentage_tracks_rendered_witness :
    run initState
        [Call.progress 1 sampleTime 10 100 false, Call.progress 2 sampleTime 10 100 true,
          Call.progress 3 sampleTime 20 100 false, Call.disable false,
          Call.progress 4 sampleTime 10 100 false] =
      some { initState with
        lastlogtime := 4
        lastPercentage := 13421773 / 134217728
        stdout := "[Progress]  10% [===                           ] 10/100 \r"
          ++ "[Progress]  20% [======                        ] 20/100 \r"
          ++ "[Progress]  10% [===                           ] 10/100 \r" } ∧
    renderedPercentages initState
        [Call.progress 1 sampleTime 10 100 false, Call.progress 2 sampleTime 10 100 true,
          Call.progress 3 sampleTime 20 100 false, Call.disable false,
          Call.progress 4 sampleTime 10 100 false] =
      some [13421773 / 134217728, 13421773 / 67108864, 13421773 / 134217728] ∧
    ∃ l : List ℚ,
      renderedPercentages initState
        [Call.progress 1 sampleTime 10 100 false, Call.progress 2 sampleTime 10 100 true,
          Call.progress 3 sampleTime 20 100 false, Call.disable false,
          Call.progress 4 sampleTime 10 100 false] = some l ∧
      (13421773 / 134217728 : ℚ) = l.getLast?.getD 0 ∧ List.Chain (fun a b => a ≠ b) 0 l :=
  ⟨by decide!, by decide!,
    (lastPercentage_tracks_rendered
      [Call.progress 1 sampleTime 10 100 false, Call.progress 2 sampleTime 10 100 true,
        Call.progress 3 sampleTime 20 100 false, Call.disable false,
        Call.progress 4 sampleTime 10 100 false]
      { initState with
        lastlogtime := 4
        lastPercentage := 13421773 / 134217728
        stdout := "[Progress]  10% [===                           ] 10/100 \r"
          ++ "[Progress]  20% [======                        ] 20/100 \r"
          ++ "[Progress]  10% [===                           ] 10/100 \r" }
      (by decide!)).1⟩

end Logger
